import Mathlib

/-!
Verification development for the Home-PA scheduling algorithm
(`suggestionLogic.py`).  The Python source is shallowly embedded: Python
floats are modelled by the rationals `ℚ`, Python dicts by in-order
association lists, and the Euclidean distance `math.hypot` (which is a
floating-point square root, hence not rational-valued) is modelled by an
abstract distance function `euclidean_distance` that every definition and
theorem is parametrised over.  All scheduling logic is translated
line-by-line from the source; fuel arguments replace the source's `while`
loops, with fuel chosen to dominate the loop's iteration count.
-/

namespace HomePA

/-- Coordinates are 2D points, `Coordinate = Tuple[float, float]` in the source. -/
abbrev Coordinate : Type := ℚ × ℚ

/-- Source constant `MINUTES_PER_DISTANCE_UNIT = 3.0`. -/
def MINUTES_PER_DISTANCE_UNIT : ℚ := 3

/-- Source constant `MANDATORY_NEED_THRESHOLD = 1.0`. -/
def MANDATORY_NEED_THRESHOLD : ℚ := 1

/-- Source constant `HOME_LABEL = "home"`. -/
def HOME_LABEL : String := "home"

/-- Source function `clamp01`. -/
def clamp01 (value : ℚ) : ℚ :=
  if value < 0 then 0
  else if 1 < value then 1
  else value

/-- Python's built-in `round` (banker's rounding, half to even) on exact rationals,
as used by `int(round(x))` in `greedy_select_candidates`. -/
def pyRound (q : ℚ) : ℤ :=
  let f : ℤ := Int.floor q
  let frac : ℚ := q - (f : ℚ)
  if frac < 1/2 then f
  else if 1/2 < frac then f + 1
  else if f % 2 = 0 then f else f + 1

/-- Source function `normalize_location_preference`.  `value.strip()` is modelled by
`String.trim`, `.lower()` by `String.toLower`, `.replace(" ", "_")` by `String.replace`. -/
def normalize_location_preference (value : Option String) : Option String :=
  match value with
  | none => none
  | some v =>
    let normalized := v.trim
    if normalized = "" then none
    else if (normalized.toLower.replace " " "_") = "near_home" then some "near_home"
    else some normalized

/-- Source dataclass `Gap`.  The constructor's `duration > 0` check is carried as a
hypothesis in the theorems that need it. -/
structure Gap where
  gap_id : String
  duration : ℚ
  start_location : Coordinate
  end_location : Coordinate
  start_label : Option String := none
  end_label : Option String := none
deriving DecidableEq, Repr

/-- Source dataclass `Suggestion`.  The `location_preference` field stores the
normalized preference, mirroring `__post_init__`, which replaces the raw field by
`normalize_location_preference(...)` at construction time.  The derived fields
`score`, `min_duration`, `max_duration` are modelled as functions below. -/
structure Suggestion where
  suggestion_id : String
  need : ℚ
  importance : ℚ
  duration : ℚ
  location : Coordinate
  location_preference : Option String := none
deriving DecidableEq, Repr

/-- Derived field `score = clamp01(need) + clamp01(importance)` set in `__post_init__`. -/
def Suggestion.score (s : Suggestion) : ℚ :=
  clamp01 s.need + clamp01 s.importance

/-- Derived field `min_duration = duration` set in `__post_init__`. -/
def Suggestion.min_duration (s : Suggestion) : ℚ :=
  s.duration

/-- Source dataclass `ScheduledBlock`. -/
structure ScheduledBlock where
  suggestion_id : String
  gap_id : String
  start_offset : ℚ
  duration : ℚ
  location : Coordinate
deriving DecidableEq, Repr

/-- Source dataclass `MovementLogEntry`. -/
structure MovementLogEntry where
  from_label : String
  to_label : String
  distance : ℚ
  minutes : ℚ
deriving DecidableEq, Repr

/-- Source dataclass `AllocationState`.  The Python dict `gap_usage` is modelled as
an insertion-ordered association list. -/
structure AllocationState where
  gap_usage : List (String × ℚ)
  gap_index : ℕ
  current_cursor : Option Coordinate
  current_label : Option String
  gap_has_blocks : Bool
deriving DecidableEq, Repr

/-- Source dataclass `ScheduleResult`.  `allocated_minutes` (a Python dict) is an
insertion-ordered association list. -/
structure ScheduleResult where
  ordered_suggestions : List Suggestion
  scheduled_blocks : List ScheduledBlock
  travel_cost : ℚ
  dropped_suggestions : List Suggestion
  unused_gap_time : ℚ
  permutations_evaluated : ℕ
  allocated_minutes : List (String × ℚ)
  movement_log : List MovementLogEntry
deriving DecidableEq, Repr

/-! ### Association-list model of Python dicts -/

/-- Dict read `d.get(k, dflt)` (and `d[k]` where the key is known to be present). -/
def dget {α : Type} (d : List (String × α)) (k : String) (dflt : α) : α :=
  match d with
  | [] => dflt
  | (k', v) :: rest => if k' = k then v else dget rest k dflt

/-- Dict write `d[k] = v`: replaces the first binding of `k`, or appends a new one,
matching Python's insertion-order semantics. -/
def dset {α : Type} (d : List (String × α)) (k : String) (v : α) : List (String × α) :=
  match d with
  | [] => [(k, v)]
  | (k', v') :: rest => if k' = k then (k, v) :: rest else (k', v') :: dset rest k v

/-- Dict increment `d[k] += v` (with defaultdict semantics `d.get(k, 0) + v`;
in `assign_order_to_gaps` the key is always present, so this agrees with `d[k] += v`). -/
def dincr (d : List (String × ℚ)) (k : String) (v : ℚ) : List (String × ℚ) :=
  dset d k (dget d k 0 + v)

/-- Dict merge `base.update(upd)`. -/
def dupdate {α : Type} (base upd : List (String × α)) : List (String × α) :=
  upd.foldl (fun d kv => dset d kv.1 kv.2) base

/-! ### Stable sorts (Python's `list.sort` is stable) -/

/-- Insert into a score-descending sorted list, before the first strictly smaller
score; with the fold below this reproduces Python's stable
`sort(key=lambda s: s.score, reverse=True)`. -/
def insertByScoreDesc (s : Suggestion) : List Suggestion → List Suggestion
  | [] => [s]
  | t :: ts => if t.score ≤ s.score then s :: t :: ts else t :: insertByScoreDesc s ts

/-- Stable descending sort by `score`, modelling `batch.sort(key=..., reverse=True)`. -/
def sortByScoreDesc (l : List Suggestion) : List Suggestion :=
  l.foldr insertByScoreDesc []

/-- Key order used by `scheduled_blocks_total.sort(key=lambda b: (b.gap_id, b.start_offset))`. -/
def blockKeyLe (a b : ScheduledBlock) : Bool :=
  decide (a.gap_id < b.gap_id) ||
    (decide (a.gap_id = b.gap_id) && decide (a.start_offset ≤ b.start_offset))

/-- Stable insertion for the block sort. -/
def insertBlock (b : ScheduledBlock) : List ScheduledBlock → List ScheduledBlock
  | [] => [b]
  | t :: ts => if blockKeyLe b t then b :: t :: ts else t :: insertBlock b ts

/-- Stable ascending sort of blocks by `(gap_id, start_offset)`. -/
def sortBlocks (l : List ScheduledBlock) : List ScheduledBlock :=
  l.foldr insertBlock []

/-! ### Geometry, gap helpers -/

section Core

-- Abstract model of the source's `euclidean_distance` (`math.hypot`, a float
-- square root, which has no exact rational counterpart).
variable (euclidean_distance : Coordinate → Coordinate → ℚ)

/-- Source function `travel_minutes_between`: returns `(distance, minutes)` with
`minutes = distance * MINUTES_PER_DISTANCE_UNIT`. -/
def travel_minutes_between (a b : Coordinate) : ℚ × ℚ :=
  let distance := euclidean_distance a b
  (distance, distance * MINUTES_PER_DISTANCE_UNIT)

/-- Source function `total_gap_minutes`. -/
def total_gap_minutes (gaps : List Gap) : ℚ :=
  (gaps.map (fun gap => gap.duration)).sum

/-- Python `a or b` on an optional string: `None` and `""` are falsy. -/
def orLabel (o : Option String) (dflt : String) : String :=
  match o with
  | none => dflt
  | some s => if s = "" then dflt else s

/-- Source function `resolve_gap_labels`: builds the dict
`gap_id ↦ (start_label, end_label)` with home defaults at the first gap's start
and the last gap's end. -/
def resolve_gap_labels (gaps : List Gap) : List (String × String × String) :=
  gaps.enum.foldl
    (fun labels p =>
      let idx := p.1
      let gap := p.2
      let start_label := orLabel gap.start_label
        (if idx = 0 then HOME_LABEL else gap.gap_id ++ ":start")
      let end_label := orLabel gap.end_label
        (if idx = gaps.length - 1 then HOME_LABEL else gap.gap_id ++ ":end")
      dset labels gap.gap_id (start_label, end_label))
    []

/-- Source function `remaining_capacity`. -/
def remaining_capacity (gaps : List Gap) (state : Option AllocationState)
    (tolerance : ℚ) : ℚ :=
  match state with
  | none => total_gap_minutes gaps
  | some st =>
    gaps.enum.foldl
      (fun total p =>
        if p.1 < st.gap_index then total
        else
          let used := dget st.gap_usage p.2.gap_id 0
          let remaining := max 0 (p.2.duration - used)
          if tolerance < remaining then total + remaining else total)
      0

/-- Source function `starting_location_for_state`. -/
def starting_location_for_state (gaps : List Gap) (state : Option AllocationState) :
    Option Coordinate :=
  match gaps with
  | [] => none
  | g0 :: _ =>
    match state with
    | none => some g0.start_location
    | some st =>
      if gaps.length ≤ st.gap_index then none
      else
        match st.current_cursor with
        | some c => some c
        | none => (gaps.get? st.gap_index).map (fun g => g.start_location)

/-! ### Ordering search (`enumerate_best_order`) -/

/-- Travel cost in minutes of visiting `perm` in order, starting from the optional
`start` anchor and ending at the optional `endLoc` anchor, skipping any leg whose
endpoint is absent — the inner cost computation of `enumerate_best_order`. -/
def routeCost (start endLoc : Option Coordinate) (perm : List Suggestion) : ℚ :=
  let step := perm.foldl
    (fun (acc : ℚ × Option Coordinate) s =>
      match acc.2 with
      | none => (acc.1, some s.location)
      | some prev =>
        (acc.1 + (travel_minutes_between euclidean_distance prev s.location).2,
          some s.location))
    (0, start)
  match step.2, endLoc with
  | some prev, some e =>
    step.1 + (travel_minutes_between euclidean_distance prev e).2
  | _, _ => step.1

end Core

/-- Fuel-indexed enumeration of all permutations of a list in lexicographic order
of source indices, the order in which `itertools.permutations` yields them.  The
fuel equals the list length at every call, so it never runs out. -/
def pyPermAux {α : Type} : ℕ → List α → List (List α)
  | _, [] => [[]]
  | 0, _ :: _ => []
  | fuel + 1, a :: as =>
    (List.finRange (a :: as).length).flatMap
      (fun i => (pyPermAux fuel ((a :: as).eraseIdx i)).map ((a :: as).get i :: ·))

/-- All permutations of `l` in the order produced by `itertools.permutations(l)`. -/
def pyPermutations {α : Type} (l : List α) : List (List α) :=
  pyPermAux l.length l

section Core2

variable (euclidean_distance : Coordinate → Coordinate → ℚ)

/-- One iteration of the best-order fold in `enumerate_best_order`: compute the
permutation's travel cost, bump the count of permutations checked, and keep the
incumbent unless the new cost is a strict improvement (`<`) — so the first
permutation realising the minimum is kept.  Python's `math.inf` initial best
cost is modelled by the `Option` being `none` (every real cost beats it). -/
def bestStep (start_location end_location : Option Coordinate)
    (acc : Option (List Suggestion × ℚ) × ℕ) (perm : List Suggestion) :
    Option (List Suggestion × ℚ) × ℕ :=
  let cost := routeCost euclidean_distance start_location end_location perm
  let checked := acc.2 + 1
  match acc.1 with
  | none => (some (perm, cost), checked)
  | some best =>
    if cost < best.2 then (some (perm, cost), checked)
    else (some best, checked)

/-- Source function `enumerate_best_order`.  `raise ValueError` is modelled by
`Except.error`; the final `assert best_order is not None` is the second error
case (proved unreachable for nonempty input). -/
def enumerate_best_order (suggestions : List Suggestion)
    (start_location end_location : Option Coordinate) (permutation_limit : ℕ) :
    Except String (List Suggestion × ℚ × ℕ) :=
  let n := suggestions.length
  if n = 0 then .ok ([], 0, 0)
  else if permutation_limit < n then
    .error "Permutation search limited"
  else
    let step := (pyPermutations suggestions).foldl
      (bestStep euclidean_distance start_location end_location) (none, 0)
    match step.1 with
    | some best => .ok (best.1, best.2, step.2)
    | none => .error "assertion failed: best_order is not None"

end Core2

/-! ### Knapsack selector (`greedy_select_candidates`)

The source's 0/1 knapsack DP fills a 1D table `dp[0..W]` item by item, iterating
`w` from `W` down to `w_i` so that `dp[w - w_i]` is still the previous item's row
when `dp[w]` is written.  `dpRev rev w` below is the table value `dp[w]` after
processing the items whose reversal is `rev` (head of `rev` = last item
processed); `knapChosenRev` is the source's backtracking loop
(`for i in range(n - 1, -1, -1): if take[i][w]: ...`), recomputing the prefix
tables instead of materialising the `take` matrix — the recovered choices are
identical because `take[i][w]` is true exactly when item `i` strictly improved
`dp[w]` over the previous row. -/

/-- DP table value `dp[w]` after processing the reversed item list `rev`
(each item is `(weight, value, payload)`). -/
def dpRev {α : Type} : List (ℕ × ℚ × α) → ℕ → ℚ
  | [], _ => 0
  | x :: rest, w =>
    if x.1 ≤ w ∧ dpRev rest w < dpRev rest (w - x.1) + x.2.1 then
      dpRev rest (w - x.1) + x.2.1
    else dpRev rest w

/-- Backtracking extraction of the chosen items, last processed item first —
the order in which the source appends to `chosen`. -/
def knapChosenRev {α : Type} : List (ℕ × ℚ × α) → ℕ → List (ℕ × ℚ × α)
  | [], _ => []
  | x :: rest, w =>
    if x.1 ≤ w ∧ dpRev rest w < dpRev rest (w - x.1) + x.2.1 then
      x :: knapChosenRev rest (w - x.1)
    else knapChosenRev rest w

/-- Discretized DP weight of a suggestion:
`max(1, int(round(s.min_duration / resolution_minutes)))`. -/
def knapWeight (resolution_minutes : ℚ) (s : Suggestion) : ℕ :=
  (max 1 (pyRound (s.min_duration / resolution_minutes))).toNat

/-- Discretized DP capacity: `max(0, int(round(capacity / resolution_minutes)))`. -/
def knapCapacity (resolution_minutes capacity : ℚ) : ℕ :=
  (max 0 (pyRound (capacity / resolution_minutes))).toNat

/-- Source function `greedy_select_candidates`: 0/1 knapsack selection of
suggestions maximising total `score` under the discretized minute capacity,
returned sorted by descending score.  `_max_distance` is unused, as in the
source. -/
def greedy_select_candidates (suggestions : List Suggestion) (gaps : List Gap)
    (_max_distance : ℚ) (available_minutes : Option ℚ) (tolerance : ℚ)
    (resolution_minutes : ℚ) : List Suggestion :=
  let capacity := available_minutes.getD (total_gap_minutes gaps)
  if capacity ≤ tolerance then []
  else
    let W := knapCapacity resolution_minutes capacity
    let triples := suggestions.map
      (fun s => (knapWeight resolution_minutes s, s.score, s))
    let chosen := (knapChosenRev triples.reverse W).map (fun x => x.2.2)
    sortByScoreDesc chosen

/-! ### Gap placement engine (`assign_order_to_gaps`) -/

/-- Internal state of `assign_order_to_gaps`: the mutable locals `gap_usage`,
`gap_index`, `current_cursor`, `current_label`, `gap_has_blocks` together with the
accumulating `schedule` and `movement_logs` lists. -/
structure AssignSt where
  gap_usage : List (String × ℚ)
  gap_index : ℕ
  current_cursor : Option Coordinate
  current_label : Option String
  gap_has_blocks : Bool
  blocks : List ScheduledBlock
  logs : List MovementLogEntry
deriving DecidableEq, Repr

/-- Extract the `AllocationState` the source returns from the internal state. -/
def AssignSt.toAlloc (st : AssignSt) : AllocationState :=
  ⟨st.gap_usage, st.gap_index, st.current_cursor, st.current_label, st.gap_has_blocks⟩

section Assign

variable (euclidean_distance : Coordinate → Coordinate → ℚ)
variable (gaps : List Gap) (gap_labels : List (String × String × String))
variable (tolerance : ℚ)

/-- Local helper `gap_start_label` of `assign_order_to_gaps`. -/
def gap_start_label (gap : Gap) : String :=
  (dget gap_labels gap.gap_id (gap.gap_id ++ ":start", gap.gap_id ++ ":end")).1

/-- Local helper `gap_end_label` of `assign_order_to_gaps`. -/
def gap_end_label (gap : Gap) : String :=
  (dget gap_labels gap.gap_id (gap.gap_id ++ ":start", gap.gap_id ++ ":end")).2

/-- Local helper `ensure_gap_exit_ok` of `assign_order_to_gaps`: the travel leg
from `cursor` to the gap's end, or `none` if it does not fit in the remaining
time (within tolerance). -/
def ensure_gap_exit_ok (usage : List (String × ℚ)) (gap : Gap) (cursor : Coordinate)
    (label : Option String) : Option (ℚ × ℚ × String × String) :=
  let dm := travel_minutes_between euclidean_distance cursor gap.end_location
  let remaining := gap.duration - dget usage gap.gap_id 0
  if remaining + tolerance < dm.2 then none
  else
    let from_label := match label with
      | some l => l
      | none => gap_start_label gap_labels gap
    some (dm.1, dm.2, from_label, gap_end_label gap_labels gap)

/-- Local helper `shift_to_next_gap`: exits the current gap (consuming and
logging the exit travel leg if above tolerance) and advances `gap_index`.
Returns `none` where the source returns `False`: when there is no current gap,
when the exit leg does not fit, or when the advanced index runs past the last
gap.  (In the source the first and last of these leave mutations behind, but the
caller then makes `allocate_suggestion`, hence the whole
`assign_order_to_gaps` call, fail, so the mutated state is discarded.) -/
def shift_to_next_gap (st : AssignSt) : Option AssignSt :=
  match gaps.get? st.gap_index with
  | none => none
  | some gap =>
    let cursor := st.current_cursor.getD gap.start_location
    match ensure_gap_exit_ok euclidean_distance gap_labels tolerance
        st.gap_usage gap cursor st.current_label with
    | none => none
    | some (distance, minutes, from_label, to_label) =>
      let st1 :=
        if tolerance < minutes then
          { st with
            gap_usage := dincr st.gap_usage gap.gap_id minutes
            logs := st.logs ++ [⟨from_label, to_label, distance, minutes⟩] }
        else st
      let st2 := { st1 with
        gap_index := st1.gap_index + 1
        current_cursor := none
        current_label := none
        gap_has_blocks := false }
      if st2.gap_index < gaps.length then some st2 else none

/-- The location-preference gate of `allocate_suggestion` (source lines
383–427): `true` means the suggestion must be skipped at the current position
(forcing a gap advance).  An unrecognized non-empty preference always rejects;
`near_home` never rejects a mandatory suggestion (the source's
`prefer_this_placement` computation on lines 431–443 is dead code — the flag is
never read — and is omitted); for a non-mandatory suggestion it rejects unless
the suggestion can be placed at the first gap's start or at the last gap
(accounting for the return leg when it is the last suggestion of the order). -/
def placementRejected (gap : Gap) (gap_index : ℕ)
    (current_cursor : Option Coordinate) (cursor : Coordinate) (remaining : ℚ)
    (s : Suggestion) (is_last_suggestion : Bool) : Bool :=
  match s.location_preference with
  | none => false
  | some preference =>
    if preference ≠ "near_home" then true
    else
      let is_mandatory := decide (MANDATORY_NEED_THRESHOLD - tolerance ≤ s.need)
      if is_mandatory then false
      else
        let labels2 := dget gap_labels gap.gap_id ("", "")
        let is_at_first_gap_start :=
          gap_index = 0 ∧ current_cursor = none ∧ labels2.1 = HOME_LABEL
        let is_at_last_gap :=
          gap_index = gaps.length - 1 ∧ labels2.2 = HOME_LABEL
        let travel_in :=
          (travel_minutes_between euclidean_distance cursor s.location).2
        let can_place_at_first :=
          is_at_first_gap_start ∧ travel_in + s.duration ≤ remaining + tolerance
        let travel_to_end :=
          (travel_minutes_between euclidean_distance s.location
            gap.end_location).2
        let total_required_last :=
          if is_last_suggestion then travel_in + s.duration + travel_to_end
          else travel_in + s.duration
        let can_place_at_last :=
          is_at_last_gap ∧ total_required_last ≤ remaining + tolerance
        decide ¬(can_place_at_first ∨ can_place_at_last)

/-- Loop body of `allocate_suggestion` (the source's `while True`), indexed by
fuel.  Every iteration that does not return passes through a successful
`shift_to_next_gap`, which increments `gap_index` (bounded by `gaps.length`), so
fuel `gaps.length + 1` dominates the iteration count.  The source's
`prefer_this_placement` computation for mandatory near-home suggestions
(lines 431–443) is dead code — the flag is never read afterwards — and is
therefore omitted. -/
def allocateLoop (s : Suggestion) (is_last_suggestion : Bool) :
    ℕ → AssignSt → Option AssignSt
  | 0, _ => none
  | fuel + 1, st =>
    match gaps.get? st.gap_index with
    | none => none
    | some gap =>
      let cursor := st.current_cursor.getD gap.start_location
      let label := st.current_label.getD (gap_start_label gap_labels gap)
      let used := dget st.gap_usage gap.gap_id 0
      let remaining := gap.duration - used
      if remaining ≤ tolerance then
        match shift_to_next_gap euclidean_distance gaps gap_labels tolerance st with
        | none => none
        | some st' => allocateLoop s is_last_suggestion fuel st'
      else
        if placementRejected euclidean_distance gaps gap_labels tolerance gap
            st.gap_index st.current_cursor cursor remaining s
            is_last_suggestion then
          match shift_to_next_gap euclidean_distance gaps gap_labels tolerance st with
          | none => none
          | some st' => allocateLoop s is_last_suggestion fuel st'
        else
          let dm := travel_minutes_between euclidean_distance cursor s.location
          let travel_in := dm.2
          if remaining + tolerance < travel_in + s.duration then
            match shift_to_next_gap euclidean_distance gaps gap_labels tolerance st with
            | none => none
            | some st' => allocateLoop s is_last_suggestion fuel st'
          else
            let st1 :=
              if tolerance < travel_in then
                { st with
                  gap_usage := dincr st.gap_usage gap.gap_id travel_in
                  logs := st.logs ++ [⟨label, s.suggestion_id, dm.1, travel_in⟩] }
              else st
            let remaining1 := gap.duration - dget st1.gap_usage gap.gap_id 0
            if remaining1 + tolerance < s.duration then
              match shift_to_next_gap euclidean_distance gaps gap_labels tolerance st1 with
              | none => none
              | some st' => allocateLoop s is_last_suggestion fuel st'
            else
              let start_offset := dget st1.gap_usage gap.gap_id 0
              some { st1 with
                gap_usage := dincr st1.gap_usage gap.gap_id s.duration
                blocks := st1.blocks ++
                  [⟨s.suggestion_id, gap.gap_id, start_offset, s.duration,
                    s.location⟩]
                current_cursor := some s.location
                current_label := some s.suggestion_id
                gap_has_blocks := true }

/-- Local helper `allocate_suggestion` of `assign_order_to_gaps`. -/
def allocate_suggestion (s : Suggestion) (is_last_suggestion : Bool)
    (st : AssignSt) : Option AssignSt :=
  allocateLoop euclidean_distance gaps gap_labels tolerance s is_last_suggestion
    (gaps.length + 1) st

/-- The `for idx, suggestion in enumerate(ordered_suggestions)` loop of
`assign_order_to_gaps`: `is_last_suggestion` is true exactly for the final
element. -/
def assignGo : List Suggestion → AssignSt → Option AssignSt
  | [], st => some st
  | [s], st => allocate_suggestion euclidean_distance gaps gap_labels tolerance s true st
  | s :: s' :: rest, st =>
    match allocate_suggestion euclidean_distance gaps gap_labels tolerance s false st with
    | none => none
    | some st' => assignGo (s' :: rest) st'

/-- The working state `assign_order_to_gaps` starts from: the fresh per-gap
usage dict (all gaps at 0.0) merged with the carried-over state's usage, and
the carried-over cursor data (source lines 309–320). -/
def initialAssignSt (initial_state : Option AllocationState) : AssignSt :=
  match initial_state with
  | none => ⟨gaps.map (fun gap => (gap.gap_id, 0)), 0, none, none, false, [], []⟩
  | some init =>
    ⟨dupdate (gaps.map (fun gap => (gap.gap_id, 0))) init.gap_usage,
      init.gap_index, init.current_cursor, init.current_label,
      init.gap_has_blocks, [], []⟩

/-- The trailing step of `assign_order_to_gaps` (source lines 488–504): if a
current gap remains, insert the exit leg to its end (failing if unaffordable)
and advance past it, then return the blocks, state, and movement logs. -/
def assignFinish (st : AssignSt) :
    Option (List ScheduledBlock × AllocationState × List MovementLogEntry) :=
  match gaps.get? st.gap_index with
  | none => some (st.blocks, st.toAlloc, st.logs)
  | some gap =>
    let cursor := st.current_cursor.getD gap.start_location
    match ensure_gap_exit_ok euclidean_distance gap_labels tolerance
        st.gap_usage gap cursor st.current_label with
    | none => none
    | some (distance, minutes, from_label, to_label) =>
      let st1 :=
        if tolerance < minutes then
          { st with
            gap_usage := dincr st.gap_usage gap.gap_id minutes
            logs := st.logs ++ [⟨from_label, to_label, distance, minutes⟩] }
        else st
      let st2 := { st1 with
        gap_index := st1.gap_index + 1
        current_cursor := none
        current_label := none
        gap_has_blocks := false }
      some (st2.blocks, st2.toAlloc, st2.logs)

/-- Source function `assign_order_to_gaps`. -/
def assign_order_to_gaps (ordered_suggestions : List Suggestion)
    (initial_state : Option AllocationState) :
    Option (List ScheduledBlock × AllocationState × List MovementLogEntry) :=
  match ordered_suggestions with
  | [] =>
    let state := initial_state.getD
      ⟨gaps.map (fun gap => (gap.gap_id, 0)), 0, none, none, false⟩
    some ([], state, [])
  | _ :: _ =>
    match assignGo euclidean_distance gaps gap_labels tolerance
        ordered_suggestions (initialAssignSt gaps initial_state) with
    | none => none
    | some st => assignFinish euclidean_distance gaps gap_labels tolerance st

end Assign

/-! ### Orchestrator (`schedule_suggestions`) -/

/-- The mutable locals of `schedule_suggestions` threaded through
`schedule_group` and the optional-phase loop. -/
structure OrchSt where
  remaining : List Suggestion
  state : Option AllocationState
  ordered_total : List Suggestion
  scheduled_blocks_total : List ScheduledBlock
  allocated_minutes : List (String × ℚ)
  movement_log_total : List MovementLogEntry
  dropped_total : List Suggestion
  total_travel_cost : ℚ
  permutations_total : ℕ
deriving DecidableEq, Repr

/-- Drop a candidate: `if x in remaining: remaining.remove(x)` followed by
`dropped_total.append(x)`. -/
def dropCandidate (x : Suggestion) (ost : OrchSt) : OrchSt :=
  { ost with
    remaining := if ost.remaining.contains x then ost.remaining.erase x
      else ost.remaining
    dropped_total := ost.dropped_total ++ [x] }

section Orch

variable (euclidean_distance : Coordinate → Coordinate → ℚ)
variable (gap_list : List Gap) (gap_labels : List (String × String × String))
variable (permutation_limit : ℕ) (tolerance : ℚ)

/-- The `while len(batch) > permutation_limit: batch.pop()` loop of
`schedule_group`, dropping the lowest-score batch members (the sorted batch's
tail) one at a time.  Each iteration shortens the batch, so fuel
`batch.length` dominates the iteration count. -/
def shrinkLoop : ℕ → List Suggestion → OrchSt → List Suggestion × OrchSt
  | 0, batch, ost => (batch, ost)
  | fuel + 1, batch, ost =>
    if permutation_limit < batch.length then
      match batch.getLast? with
      | none => (batch, ost)
      | some x => shrinkLoop fuel batch.dropLast (dropCandidate x ost)
    else (batch, ost)

/-- The `while working:` loop of `schedule_group`: run the ordering search and
placement on the current working batch, popping (and dropping) the last batch
member on failure.  Each failing iteration shortens `working`, so fuel
`working.length` dominates the iteration count.  Returns the source's `success`
flag together with the updated orchestrator state. -/
def workLoop : ℕ → List Suggestion → OrchSt → Bool × OrchSt
  | 0, _, ost => (false, ost)
  | fuel + 1, working, ost =>
    match working with
    | [] => (false, ost)
    | _ :: _ =>
      let start_location := starting_location_for_state gap_list ost.state
      let end_location := gap_list.getLast?.map (fun g => g.end_location)
      match start_location with
      | none => (false, ost)   -- `working.clear(); break`
      | some start =>
        match enumerate_best_order euclidean_distance working (some start)
            end_location permutation_limit with
        | .error _ =>
          match working.getLast? with
          | none => (false, ost)
          | some x => workLoop fuel working.dropLast (dropCandidate x ost)
        | .ok (order, travel_cost, permutations_checked) =>
          match assign_order_to_gaps euclidean_distance gap_list gap_labels
              tolerance order ost.state with
          | none =>
            match working.getLast? with
            | none => (false, ost)
            | some x => workLoop fuel working.dropLast (dropCandidate x ost)
          | some (schedule, state', movements) =>
            let remaining' := order.foldl
              (fun r s => if r.contains s then r.erase s else r) ost.remaining
            let allocated' := schedule.foldl
              (fun d block => dincr d block.suggestion_id block.duration)
              ost.allocated_minutes
            (true,
              { remaining := remaining'
                state := some state'
                ordered_total := ost.ordered_total ++ order
                scheduled_blocks_total := ost.scheduled_blocks_total ++ schedule
                allocated_minutes := allocated'
                movement_log_total := ost.movement_log_total ++ movements
                dropped_total := ost.dropped_total
                total_travel_cost := ost.total_travel_cost + travel_cost
                permutations_total := ost.permutations_total +
                  permutations_checked })

/-- Local closure `schedule_group` of `schedule_suggestions`. -/
def schedule_group (group : List Suggestion) (ost : OrchSt) : Bool × OrchSt :=
  let batch := group.filter (fun s => ost.remaining.contains s)
  if batch.isEmpty then (false, ost)
  else
    let batch := sortByScoreDesc batch
    let shrunk := shrinkLoop permutation_limit batch.length batch ost
    if shrunk.1.isEmpty then (false, shrunk.2)
    else
      workLoop euclidean_distance gap_list gap_labels permutation_limit tolerance
        shrunk.1.length shrunk.1 shrunk.2

variable (max_distance resolution_minutes : ℚ) (optional : List Suggestion)

/-- One iteration of the optional-phase `while remaining:` loop of
`schedule_suggestions`: returns `(continue?, state)` — `true` where the source
loops again, `false` where it breaks or the loop guard fails. -/
def optIteration (ost : OrchSt) : Bool × OrchSt :=
  match ost.remaining with
  | [] => (false, ost)
  | _ :: _ =>
    let capacity := remaining_capacity gap_list ost.state tolerance
    if capacity ≤ tolerance then (false, ost)
    else
      let optional_remaining :=
        optional.filter (fun s => ost.remaining.contains s)
      match optional_remaining with
      | [] => (false, ost)
      | _ :: _ =>
        let selected := greedy_select_candidates optional_remaining gap_list
          max_distance (some capacity) tolerance resolution_minutes
        match selected with
        | [] => (false, ost)
        | _ :: _ =>
          let selected := sortByScoreDesc selected
          let location_selected := selected.filter
            (fun s => s.location_preference.isSome && ost.remaining.contains s)
          let afterLoc :=
            if location_selected.isEmpty then (false, ost)
            else
              schedule_group euclidean_distance gap_list gap_labels
                permutation_limit tolerance location_selected ost
          if afterLoc.1 then (true, afterLoc.2)
          else
            let ost1 := afterLoc.2
            let flexible_selected := selected.filter
              (fun s => s.location_preference.isNone && ost1.remaining.contains s)
            match flexible_selected with
            | [] =>
              if location_selected.isEmpty || !afterLoc.1 then (false, ost1)
              else (true, ost1)
            | _ :: _ =>
              let r2 := schedule_group euclidean_distance gap_list gap_labels
                permutation_limit tolerance flexible_selected ost1
              if r2.1 then (true, r2.2) else (false, r2.2)

/-- The optional-phase `while remaining:` loop of `schedule_suggestions`.
Every iteration that reaches the next one passes through a successful
`schedule_group` call, which strictly shrinks `remaining` (at least one placed
or popped candidate is removed from it), so fuel `remaining.length + 1`
dominates the iteration count. -/
def optLoop : ℕ → OrchSt → OrchSt
  | 0, ost => ost
  | fuel + 1, ost =>
    let r := optIteration euclidean_distance gap_list gap_labels
      permutation_limit tolerance max_distance resolution_minutes optional ost
    if r.1 then optLoop fuel r.2 else r.2

end Orch

section Schedule

variable (euclidean_distance : Coordinate → Coordinate → ℚ)

/-- Source function `schedule_suggestions` (defaults: `max_distance=3.0`,
`permutation_limit=8`, `tolerance=1e-6`, `resolution_minutes=1.0`). -/
def schedule_suggestions (suggestions : List Suggestion) (gaps : List Gap)
    (max_distance : ℚ := 3) (permutation_limit : ℕ := 8)
    (tolerance : ℚ := 1/1000000) (resolution_minutes : ℚ := 1) :
    ScheduleResult :=
  let gap_list := gaps
  let suggestion_list := suggestions
  let gap_labels := resolve_gap_labels gap_list
  match gap_list with
  | [] =>
    { ordered_suggestions := []
      scheduled_blocks := []
      travel_cost := 0
      dropped_suggestions := suggestion_list
      unused_gap_time := 0
      permutations_evaluated := 0
      allocated_minutes := []
      movement_log := [] }
  | _ :: _ =>
    let mandatory := suggestion_list.filter
      (fun s => decide (MANDATORY_NEED_THRESHOLD - tolerance ≤ s.need))
    let optional := suggestion_list.filter
      (fun s => !(mandatory.contains s))
    let total_gap_time := total_gap_minutes gap_list
    let total_mand_duration := (mandatory.map (fun s => s.duration)).sum
    if total_gap_time + tolerance < total_mand_duration then
      { ordered_suggestions := []
        scheduled_blocks := []
        travel_cost := 0
        dropped_suggestions := suggestion_list
        unused_gap_time := total_gap_time
        permutations_evaluated := 0
        allocated_minutes := []
        movement_log := [] }
    else
      let remaining := mandatory ++ optional
      let ost0 : OrchSt := ⟨remaining, none, [], [], [], [], [], 0, 0⟩
      let mandatory_remaining :=
        mandatory.filter (fun s => ost0.remaining.contains s)
      let afterMand : Option OrchSt :=
        match mandatory_remaining with
        | [] => some ost0
        | _ :: _ =>
          let r := schedule_group euclidean_distance gap_list gap_labels
            permutation_limit tolerance mandatory_remaining ost0
          if r.1 then some r.2 else none
      match afterMand with
      | none =>
        { ordered_suggestions := []
          scheduled_blocks := []
          travel_cost := 0
          dropped_suggestions := suggestion_list
          unused_gap_time := total_gap_time
          permutations_evaluated := 0
          allocated_minutes := []
          movement_log := [] }
      | some ost1 =>
        let ostF := optLoop euclidean_distance gap_list gap_labels
          permutation_limit tolerance max_distance resolution_minutes optional
          (ost1.remaining.length + 1) ost1
        let blocks := sortBlocks ostF.scheduled_blocks_total
        let unused :=
          match ostF.state with
          | none => total_gap_minutes gap_list
          | some st => remaining_capacity gap_list (some st) tolerance
        let dropped := ostF.dropped_total ++
          ostF.remaining.filter (fun s => !(ostF.dropped_total.contains s))
        { ordered_suggestions := ostF.ordered_total
          scheduled_blocks := blocks
          travel_cost := ostF.total_travel_cost
          dropped_suggestions := dropped
          unused_gap_time := unused
          permutations_evaluated := ostF.permutations_total
          allocated_minutes := ostF.allocated_minutes
          movement_log := ostF.movement_log_total }

end Schedule

/-! ### Concrete instances used by counterexamples and witnesses -/

/-- Distance function of a world where every point coincides (all travel free);
a legitimate instance of the abstract `euclidean_distance` parameter, realised
e.g. by placing every location at the same coordinate. -/
def dist0 : Coordinate → Coordinate → ℚ := fun _ _ => 0

/-- A 100-minute gap anchored at the origin. -/
def gap100 : Gap :=
  { gap_id := "g1", duration := 100, start_location := (0, 0),
    end_location := (0, 0) }

/-- Two 5-minute gaps at the origin. -/
def gap5a : Gap :=
  { gap_id := "g1", duration := 5, start_location := (0, 0),
    end_location := (0, 0) }

/-- Second 5-minute gap. -/
def gap5b : Gap :=
  { gap_id := "g2", duration := 5, start_location := (0, 0),
    end_location := (0, 0) }

/-- Mandatory suggestion of duration 6 at the origin. -/
def mand6 : Suggestion :=
  { suggestion_id := "m6", need := 1, importance := 0, duration := 6,
    location := (0, 0) }

/-- Mandatory suggestion of duration 4 at the origin. -/
def mand4 : Suggestion :=
  { suggestion_id := "m4", need := 1, importance := 0, duration := 4,
    location := (0, 0) }

/-- Mandatory suggestion whose duration exceeds `gap100.duration` by exactly the
default tolerance. -/
def mandTol : Suggestion :=
  { suggestion_id := "A", need := 1, importance := 0,
    duration := 100 + 1/1000000, location := (0, 0) }

/-- Optional (non-mandatory) suggestion of duration 30 at the origin. -/
def opt30 : Suggestion :=
  { suggestion_id := "B", need := 1/2, importance := 1/2, duration := 30,
    location := (0, 0) }

/-- Suggestion with an unsupported (already normalized, non-`near_home`)
location preference. -/
def badPref : Suggestion :=
  { suggestion_id := "bp", need := 1/2, importance := 1/2, duration := 30,
    location := (0, 0), location_preference := some "studio" }

/-- First gap of the C6 scenario: 50 minutes, starting from `"work"` (so its
start is not a home boundary). -/
def eg1 : Gap :=
  { gap_id := "g1", duration := 3, start_location := (0, 0),
    end_location := (0, 0), start_label := some "work" }

/-- Last gap of the C6 scenario: 100 minutes with default home labels. -/
def eg2 : Gap :=
  { gap_id := "g2", duration := 8, start_location := (0, 0),
    end_location := (0, 0) }

/-- Non-mandatory near-home suggestion (need 0.6, score higher than `enh2`). -/
def enh1 : Suggestion :=
  { suggestion_id := "nh1", need := 3/5, importance := 9/10, duration := 2,
    location := (0, 0), location_preference := some "near_home" }

/-- Second non-mandatory near-home suggestion (need 0.5). -/
def enh2 : Suggestion :=
  { suggestion_id := "nh2", need := 1/2, importance := 4/5, duration := 2,
    location := (0, 0), location_preference := some "near_home" }

/-! ### C10: scheduling with an empty gap list -/

/-- C10: for every suggestion list, `schedule_suggestions` with an empty gap
list returns the result with empty `scheduled_blocks`, `dropped_suggestions`
equal to the entire input list, `travel_cost` 0, `unused_gap_time` 0,
`permutations_evaluated` 0, empty `allocated_minutes` and an empty movement
log. -/
theorem schedule_suggestions_empty_gaps
    (euclidean_distance : Coordinate → Coordinate → ℚ)
    (suggestions : List Suggestion) (max_distance : ℚ) (permutation_limit : ℕ)
    (tolerance resolution_minutes : ℚ) :
    schedule_suggestions euclidean_distance suggestions [] max_distance
      permutation_limit tolerance resolution_minutes =
      { ordered_suggestions := []
        scheduled_blocks := []
        travel_cost := 0
        dropped_suggestions := suggestions
        unused_gap_time := 0
        permutations_evaluated := 0
        allocated_minutes := []
        movement_log := [] } := rfl

/-! ### C9: determinism -/

/-- C9: `schedule_suggestions` is deterministic — two calls with equal
suggestion lists, equal gap lists and equal configuration
(`max_distance`, `permutation_limit`, `tolerance`, `resolution_minutes`) return
identical `ScheduleResult` values in every field. -/
theorem schedule_suggestions_deterministic
    (euclidean_distance : Coordinate → Coordinate → ℚ)
    (suggestions₁ suggestions₂ : List Suggestion) (gaps₁ gaps₂ : List Gap)
    (max_distance₁ max_distance₂ : ℚ) (permutation_limit₁ permutation_limit₂ : ℕ)
    (tolerance₁ tolerance₂ resolution_minutes₁ resolution_minutes₂ : ℚ)
    (hs : suggestions₁ = suggestions₂) (hg : gaps₁ = gaps₂)
    (hmd : max_distance₁ = max_distance₂)
    (hpl : permutation_limit₁ = permutation_limit₂)
    (htol : tolerance₁ = tolerance₂)
    (hres : resolution_minutes₁ = resolution_minutes₂) :
    schedule_suggestions euclidean_distance suggestions₁ gaps₁ max_distance₁
        permutation_limit₁ tolerance₁ resolution_minutes₁ =
      schedule_suggestions euclidean_distance suggestions₂ gaps₂ max_distance₂
        permutation_limit₂ tolerance₂ resolution_minutes₂ := by
  subst hs hg hmd hpl htol hres
  rfl

/-- Witness for C9 at a concrete input. -/
theorem schedule_suggestions_deterministic_witness :
    schedule_suggestions dist0 [mand4] [gap100] 3 8 (1/1000000) 1 =
      schedule_suggestions dist0 [mand4] [gap100] 3 8 (1/1000000) 1 :=
  schedule_suggestions_deterministic dist0 [mand4] [mand4] [gap100] [gap100]
    3 3 8 8 (1/1000000) (1/1000000) 1 1 rfl rfl rfl rfl rfl rfl

/-! ### C2: the mandatory feasibility gate -/

/-- C2 (amended): for every non-empty gap list and every suggestion list whose
mandatory suggestions' total duration exceeds the total gap minutes plus
tolerance, `schedule_suggestions` returns immediately with empty
`scheduled_blocks`, `dropped_suggestions` equal to the entire input list,
`travel_cost` 0 and `unused_gap_time` equal to the total gap minutes.  The
amendment: a single mandatory suggestion whose duration exceeds the only gap's
duration *by more than tolerance* yields this outcome; if it exceeds it by at
most tolerance the suggestion is scheduled instead (see the counterexample). -/
theorem feasibility_gate
    (euclidean_distance : Coordinate → Coordinate → ℚ)
    (suggestions : List Suggestion) (gaps : List Gap)
    (max_distance : ℚ) (permutation_limit : ℕ)
    (tolerance resolution_minutes : ℚ)
    (hne : gaps ≠ [])
    (hinf : total_gap_minutes gaps + tolerance <
      (((suggestions.filter
          (fun s => decide (MANDATORY_NEED_THRESHOLD - tolerance ≤ s.need))).map
        (fun s => s.duration)).sum)) :
    schedule_suggestions euclidean_distance suggestions gaps max_distance
        permutation_limit tolerance resolution_minutes =
      { ordered_suggestions := []
        scheduled_blocks := []
        travel_cost := 0
        dropped_suggestions := suggestions
        unused_gap_time := total_gap_minutes gaps
        permutations_evaluated := 0
        allocated_minutes := []
        movement_log := [] } := by
  cases gaps with
  | nil => exact absurd rfl hne
  | cons g gs =>
    unfold schedule_suggestions
    simp only
    rw [if_pos hinf]

/-- Witness for C2 at a concrete infeasible input. -/
theorem feasibility_gate_witness :
    schedule_suggestions dist0 [mand6, mand4] [gap5a] 3 8 (1/1000000) 1 =
      { ordered_suggestions := []
        scheduled_blocks := []
        travel_cost := 0
        dropped_suggestions := [mand6, mand4]
        unused_gap_time := total_gap_minutes [gap5a]
        permutations_evaluated := 0
        allocated_minutes := []
        movement_log := [] } :=
  feasibility_gate dist0 [mand6, mand4] [gap5a] 3 8 (1/1000000) 1
    (by with_unfolding_all decide) (by with_unfolding_all decide)

/-- C2 counterexample: a single mandatory suggestion whose duration exceeds the
only gap's duration (by exactly the tolerance) is nevertheless scheduled — the
result's `scheduled_blocks` is non-empty and the suggestion is not dropped, so
the claim's final clause fails as stated. -/
theorem feasibility_gate_counterexample :
    gap100.duration < mandTol.duration ∧
      (schedule_suggestions dist0 [mandTol] [gap100] 3 8 (1/1000000)
        1).scheduled_blocks ≠ [] ∧
      mandTol ∉ (schedule_suggestions dist0 [mandTol] [gap100] 3 8 (1/1000000)
        1).dropped_suggestions := by
  refine ⟨by norm_num [gap100, mandTol], ?_, ?_⟩ <;>
    norm_num [schedule_suggestions, resolve_gap_labels, orLabel, dset, dget,
      total_gap_minutes, sortByScoreDesc, insertByScoreDesc, Suggestion.score,
      clamp01, schedule_group, shrinkLoop, workLoop,
      starting_location_for_state, enumerate_best_order, bestStep,
      pyPermutations, pyPermAux, routeCost, travel_minutes_between, dist0,
      assign_order_to_gaps, initialAssignSt, assignFinish, assignGo,
      allocate_suggestion, allocateLoop,
      shift_to_next_gap, ensure_gap_exit_ok, dincr, dupdate, optLoop,
      optIteration, placementRejected,
      remaining_capacity, sortBlocks, insertBlock, blockKeyLe, dropCandidate,
      MANDATORY_NEED_THRESHOLD, HOME_LABEL, MINUTES_PER_DISTANCE_UNIT,
      gap100, mandTol, gap_start_label, gap_end_label, AssignSt.toAlloc,
      List.finRange, List.flatMap]

/-! ### Dict lemmas -/

/-- Reading a dict after a write. -/
theorem dget_dset {α : Type} (d : List (String × α)) (k : String) (v : α)
    (k' : String) (dflt : α) :
    dget (dset d k v) k' dflt = if k = k' then v else dget d k' dflt := by
  induction d with
  | nil =>
    by_cases h : k = k' <;> simp [dset, dget, h]
  | cons p rest ih =>
    obtain ⟨k₀, v₀⟩ := p
    simp only [dset]
    by_cases h0 : k₀ = k
    · subst h0
      by_cases h : k₀ = k' <;> simp [dget, h]
    · rw [if_neg h0]
      by_cases h : k₀ = k'
      · have hkk' : ¬k = k' := fun hc => h0 (h.trans hc.symm)
        simp [dget, h, hkk']
      · simp [dget, h, ih]

/-- Reading a dict after an increment. -/
theorem dget_dincr (d : List (String × ℚ)) (k : String) (v : ℚ) (k' : String) :
    dget (dincr d k v) k' 0 =
      if k = k' then dget d k' 0 + v else dget d k' 0 := by
  unfold dincr
  rw [dget_dset]
  by_cases h : k = k' <;> simp [h]

/-- A dict read is either the default or a value actually bound in the dict. -/
theorem dget_mem_or_default {α : Type} (d : List (String × α)) (k : String)
    (dflt : α) : dget d k dflt = dflt ∨ (k, dget d k dflt) ∈ d := by
  induction d with
  | nil => left; rfl
  | cons p rest ih =>
    obtain ⟨k₀, v₀⟩ := p
    by_cases h : k₀ = k
    · subst h; right; simp [dget]
    · rcases ih with h' | h' <;> simp [dget, h, h']

/-- Bounded values are preserved by `dupdate` when every binding written is
bounded. -/
theorem dget_dupdate_le (base upd : List (String × ℚ)) (k : String) (B : ℚ)
    (hupd : ∀ v : ℚ, (k, v) ∈ upd → v ≤ B) (hbase : dget base k 0 ≤ B) :
    dget (dupdate base upd) k 0 ≤ B := by
  induction upd generalizing base with
  | nil => simpa [dupdate] using hbase
  | cons p rest ih =>
    obtain ⟨k₀, v₀⟩ := p
    have hstep : dget (dset base k₀ v₀) k 0 ≤ B := by
      rw [dget_dset]
      by_cases h : k₀ = k
      · simp only [h, if_pos rfl]
        exact hupd v₀ (by simp [h])
      · simpa [h] using hbase
    have := ih (dset base k₀ v₀) (fun v hv => hupd v (by simp [hv])) hstep
    simpa [dupdate] using this

/-! ### C5: per-gap capacity conservation in `assign_order_to_gaps` -/

/-- Per-gap usage bound: every gap's recorded usage is at most its duration plus
the tolerance. -/
def UsageOk (gaps : List Gap) (tolerance : ℚ) (usage : List (String × ℚ)) : Prop :=
  ∀ g ∈ gaps, dget usage g.gap_id 0 ≤ g.duration + tolerance

section CapacityInv

variable (euclidean_distance : Coordinate → Coordinate → ℚ)
variable (gaps : List Gap) (gap_labels : List (String × String × String))
variable (tolerance : ℚ)

/-- With distinct gap ids, incrementing the current gap's usage within its
remaining capacity preserves the usage bound. -/
theorem usageOk_dincr
    (hids : (gaps.map Gap.gap_id).Nodup)
    (usage : List (String × ℚ)) (gap : Gap) (hgap : gap ∈ gaps) (m : ℚ)
    (hm : dget usage gap.gap_id 0 + m ≤ gap.duration + tolerance)
    (hok : UsageOk gaps tolerance usage) :
    UsageOk gaps tolerance (dincr usage gap.gap_id m) := by
  intro g hg
  rw [dget_dincr]
  by_cases h : gap.gap_id = g.gap_id
  · have : gap = g := List.inj_on_of_nodup_map hids hgap hg h
    subst this
    simpa [if_pos h] using hm
  · simpa [if_neg h] using hok g hg

/-- A successful `ensure_gap_exit_ok` call returns the travel leg to the gap
end, whose minutes fit in the remaining capacity within tolerance. -/
theorem ensure_gap_exit_ok_some
    (usage : List (String × ℚ)) (gap : Gap) (cursor : Coordinate)
    (label : Option String) (info : ℚ × ℚ × String × String)
    (h : ensure_gap_exit_ok euclidean_distance gap_labels tolerance usage gap
      cursor label = some info) :
    info.2.1 = (travel_minutes_between euclidean_distance cursor
      gap.end_location).2 ∧
    info.2.1 ≤ gap.duration - dget usage gap.gap_id 0 + tolerance := by
  unfold ensure_gap_exit_ok at h
  by_cases hc : gap.duration - dget usage gap.gap_id 0 + tolerance <
      (travel_minutes_between euclidean_distance cursor gap.end_location).2
  · rw [if_pos hc] at h
    exact Option.noConfusion h
  · rw [if_neg hc] at h
    injection h with h
    subst h
    exact ⟨rfl, le_of_not_lt hc⟩

/-- Inversion of a successful `shift_to_next_gap`: the gap index advances by
one and stays in range, the cursor and label reset, the blocks are unchanged,
and the usage map is either unchanged or incremented at the current gap by an
exit leg that fits in its remaining capacity. -/
theorem shift_inversion (st st' : AssignSt)
    (h : shift_to_next_gap euclidean_distance gaps gap_labels tolerance st =
      some st') :
    ∃ gap, gaps.get? st.gap_index = some gap ∧
      st'.gap_index = st.gap_index + 1 ∧ st'.gap_index < gaps.length ∧
      st'.current_cursor = none ∧ st'.current_label = none ∧
      st'.blocks = st.blocks ∧
      (st'.gap_usage = st.gap_usage ∨
        ∃ minutes : ℚ,
          minutes ≤ gap.duration - dget st.gap_usage gap.gap_id 0 + tolerance ∧
          st'.gap_usage = dincr st.gap_usage gap.gap_id minutes) := by
  unfold shift_to_next_gap at h
  split at h
  · exact Option.noConfusion h
  next gap hget =>
    refine ⟨gap, hget, ?_⟩
    dsimp only at h
    split at h
    · exact Option.noConfusion h
    next distance minutes from_label to_label hexit =>
      have hbound := ensure_gap_exit_ok_some euclidean_distance gap_labels
        tolerance st.gap_usage gap (st.current_cursor.getD gap.start_location)
        st.current_label _ hexit
      by_cases htm : tolerance < minutes
      · rw [if_pos htm] at h
        by_cases hlt : st.gap_index + 1 < gaps.length
        · rw [if_pos hlt] at h
          injection h with h
          subst h
          exact ⟨rfl, hlt, rfl, rfl, rfl,
            Or.inr ⟨minutes, hbound.2, rfl⟩⟩
        · rw [if_neg hlt] at h
          exact Option.noConfusion h
      · rw [if_neg htm] at h
        by_cases hlt : st.gap_index + 1 < gaps.length
        · rw [if_pos hlt] at h
          injection h with h
          subst h
          exact ⟨rfl, hlt, rfl, rfl, rfl, Or.inl rfl⟩
        · rw [if_neg hlt] at h
          exact Option.noConfusion h

/-- `shift_to_next_gap` preserves the usage bound. -/
theorem shift_usageOk
    (hids : (gaps.map Gap.gap_id).Nodup)
    (st st' : AssignSt)
    (h : shift_to_next_gap euclidean_distance gaps gap_labels tolerance st =
      some st')
    (hok : UsageOk gaps tolerance st.gap_usage) :
    UsageOk gaps tolerance st'.gap_usage := by
  obtain ⟨gap, hget, _, _, _, _, _, husage⟩ :=
    shift_inversion euclidean_distance gaps gap_labels tolerance st st' h
  rcases husage with husage | ⟨minutes, hle, husage⟩
  · rw [husage]; exact hok
  · rw [husage]
    exact usageOk_dincr gaps tolerance hids st.gap_usage gap
      (List.get?_mem hget) minutes (by linarith) hok

/-- Invariant packaged for `allocateLoop`: a successful allocation appends
exactly one block, for this suggestion, with its full duration, into some gap
of the list; if the suggestion is non-mandatory with the near-home preference,
that gap is the first or the last one; and the usage bound is preserved. -/
def AllocInv (s : Suggestion) (st st' : AssignSt) : Prop :=
  ∃ b : ScheduledBlock, ∃ gap : Gap, ∃ i : ℕ,
    st'.blocks = st.blocks ++ [b] ∧
    b.suggestion_id = s.suggestion_id ∧
    b.duration = s.duration ∧
    gaps.get? i = some gap ∧
    b.gap_id = gap.gap_id ∧
    (s.location_preference = some "near_home" →
      ¬(MANDATORY_NEED_THRESHOLD - tolerance ≤ s.need) →
      i = 0 ∨ i = gaps.length - 1) ∧
    ((gaps.map Gap.gap_id).Nodup → 0 < s.duration →
      UsageOk gaps tolerance st.gap_usage → UsageOk gaps tolerance st'.gap_usage)

/-- `AllocInv` composes with a leading `shift_to_next_gap`. -/
theorem allocInv_shift (s : Suggestion) (st st'' st' : AssignSt)
    (hshift : shift_to_next_gap euclidean_distance gaps gap_labels tolerance st =
      some st'')
    (hrec : AllocInv gaps tolerance s st'' st') :
    AllocInv gaps tolerance s st st' := by
  obtain ⟨gap0, hget0, _, _, _, _, hblocks0, husage0⟩ :=
    shift_inversion euclidean_distance gaps gap_labels tolerance st st'' hshift
  obtain ⟨b, gap, i, hblocks, hid, hdur, hget, hgid, hnear, husage⟩ := hrec
  refine ⟨b, gap, i, ?_, hid, hdur, hget, hgid, hnear, ?_⟩
  · rw [hblocks, hblocks0]
  · intro hids hsd hok
    refine husage hids hsd ?_
    exact shift_usageOk euclidean_distance gaps gap_labels tolerance hids st st''
      hshift hok

/-- If the near-home gate lets a non-mandatory near-home suggestion through,
the current gap index is the first or the last one. -/
theorem placementRejected_near_home (gap : Gap) (gap_index : ℕ)
    (current_cursor : Option Coordinate) (cursor : Coordinate) (remaining : ℚ)
    (s : Suggestion) (is_last_suggestion : Bool)
    (hpref : s.location_preference = some "near_home")
    (hmand : ¬(MANDATORY_NEED_THRESHOLD - tolerance ≤ s.need))
    (h : placementRejected euclidean_distance gaps gap_labels tolerance gap
      gap_index current_cursor cursor remaining s is_last_suggestion = false) :
    gap_index = 0 ∨ gap_index = gaps.length - 1 := by
  unfold placementRejected at h
  rw [hpref] at h
  simp [hmand] at h
  by_cases h0 : gap_index = 0
  · exact Or.inl h0
  · exact Or.inr (h (Or.inl h0)).1

/-- `AllocInv` composes with any preliminary state change that keeps the blocks
and preserves the usage bound. -/
theorem allocInv_step (s : Suggestion) (st st1 st' : AssignSt)
    (hblocks : st1.blocks = st.blocks)
    (husage : (gaps.map Gap.gap_id).Nodup → 0 < s.duration →
      UsageOk gaps tolerance st.gap_usage → UsageOk gaps tolerance st1.gap_usage)
    (hrec : AllocInv gaps tolerance s st1 st') :
    AllocInv gaps tolerance s st st' := by
  obtain ⟨b, gap, i, hb, hid, hdur, hget, hgid, hnear, hus⟩ := hrec
  exact ⟨b, gap, i, by rw [hb, hblocks], hid, hdur, hget, hgid, hnear,
    fun hids hsd hok => hus hids hsd (husage hids hsd hok)⟩

/-- The master inversion lemma for the `allocate_suggestion` loop: a
successful run satisfies `AllocInv`. -/
theorem allocateLoop_inversion (s : Suggestion) (is_last_suggestion : Bool)
    (fuel : ℕ) :
    ∀ st st' : AssignSt,
    allocateLoop euclidean_distance gaps gap_labels tolerance s
      is_last_suggestion fuel st = some st' →
    AllocInv gaps tolerance s st st' := by
  induction fuel with
  | zero =>
    intro st st' h
    simp [allocateLoop] at h
  | succ fuel ih =>
    intro st st' h
    unfold allocateLoop at h
    split at h
    · exact Option.noConfusion h
    next gap hget =>
      dsimp only at h
      by_cases hrem : gap.duration - dget st.gap_usage gap.gap_id 0 ≤ tolerance
      · rw [if_pos hrem] at h
        split at h
        · exact Option.noConfusion h
        next st2 hshift =>
          exact allocInv_shift euclidean_distance gaps gap_labels tolerance s
            st st2 st' hshift (ih st2 st' h)
      · rw [if_neg hrem] at h
        by_cases hrej : placementRejected euclidean_distance gaps gap_labels
            tolerance gap st.gap_index st.current_cursor
            (st.current_cursor.getD gap.start_location)
            (gap.duration - dget st.gap_usage gap.gap_id 0) s
            is_last_suggestion = true
        · rw [if_pos hrej] at h
          split at h
          · exact Option.noConfusion h
          next st2 hshift =>
            exact allocInv_shift euclidean_distance gaps gap_labels tolerance s
              st st2 st' hshift (ih st2 st' h)
        · rw [if_neg hrej] at h
          have hrej' : placementRejected euclidean_distance gaps gap_labels
              tolerance gap st.gap_index st.current_cursor
              (st.current_cursor.getD gap.start_location)
              (gap.duration - dget st.gap_usage gap.gap_id 0) s
              is_last_suggestion = false := by
            revert hrej
            cases placementRejected euclidean_distance gaps gap_labels
              tolerance gap st.gap_index st.current_cursor
              (st.current_cursor.getD gap.start_location)
              (gap.duration - dget st.gap_usage gap.gap_id 0) s
              is_last_suggestion <;> simp
          by_cases hfit : gap.duration - dget st.gap_usage gap.gap_id 0 +
              tolerance <
              (travel_minutes_between euclidean_distance
                (st.current_cursor.getD gap.start_location) s.location).2 +
                s.duration
          · rw [if_pos hfit] at h
            split at h
            · exact Option.noConfusion h
            next st2 hshift =>
              exact allocInv_shift euclidean_distance gaps gap_labels tolerance
                s st st2 st' hshift (ih st2 st' h)
          · rw [if_neg hfit] at h
            set st1 : AssignSt :=
              if tolerance <
                  (travel_minutes_between euclidean_distance
                    (st.current_cursor.getD gap.start_location) s.location).2
              then
                { st with
                  gap_usage := dincr st.gap_usage gap.gap_id
                    (travel_minutes_between euclidean_distance
                      (st.current_cursor.getD gap.start_location) s.location).2
                  logs := st.logs ++
                    [⟨st.current_label.getD (gap_start_label gap_labels gap),
                      s.suggestion_id,
                      (travel_minutes_between euclidean_distance
                        (st.current_cursor.getD gap.start_location)
                        s.location).1,
                      (travel_minutes_between euclidean_distance
                        (st.current_cursor.getD gap.start_location)
                        s.location).2⟩] }
              else st with hst1
            have hblocks1 : st1.blocks = st.blocks := by
              rw [hst1]; split <;> rfl
            have husage1 : (gaps.map Gap.gap_id).Nodup → 0 < s.duration →
                UsageOk gaps tolerance st.gap_usage →
                UsageOk gaps tolerance st1.gap_usage := by
              intro hids hsd hok
              rw [hst1]
              split
              next htr =>
                refine usageOk_dincr gaps tolerance hids st.gap_usage gap
                  (List.get?_mem hget) _ ?_ hok
                have hf := le_of_not_lt hfit
                linarith
              next htr => exact hok
            by_cases hfit2 : gap.duration - dget st1.gap_usage gap.gap_id 0 +
                tolerance < s.duration
            · rw [if_pos hfit2] at h
              split at h
              · exact Option.noConfusion h
              next st2 hshift =>
                exact allocInv_step gaps tolerance s st st1 st'
                  hblocks1 husage1
                  (allocInv_shift euclidean_distance gaps gap_labels tolerance
                    s st1 st2 st' hshift (ih st2 st' h))
            · rw [if_neg hfit2] at h
              injection h with h
              subst h
              refine ⟨⟨s.suggestion_id, gap.gap_id,
                dget st1.gap_usage gap.gap_id 0, s.duration, s.location⟩,
                gap, st.gap_index, ?_, rfl, rfl, hget, rfl, ?_, ?_⟩
              · dsimp only
                rw [hblocks1]
              · intro hpref hmand
                exact placementRejected_near_home euclidean_distance gaps
                  gap_labels tolerance gap st.gap_index st.current_cursor
                  (st.current_cursor.getD gap.start_location)
                  (gap.duration - dget st.gap_usage gap.gap_id 0) s
                  is_last_suggestion hpref hmand hrej'
              · intro hids hsd hok
                dsimp only
                refine usageOk_dincr gaps tolerance hids st1.gap_usage gap
                  (List.get?_mem hget) _ ?_ (husage1 hids hsd hok)
                have hf2 := le_of_not_lt hfit2
                linarith

/-- A suggestion with a non-empty location preference other than `near_home`
can never be allocated: the loop only ever advances gaps and eventually fails. -/
theorem allocateLoop_unsupported (s : Suggestion) (p : String)
    (hpref : s.location_preference = some p) (hp : p ≠ "near_home")
    (is_last_suggestion : Bool) (fuel : ℕ) :
    ∀ st : AssignSt,
    allocateLoop euclidean_distance gaps gap_labels tolerance s
      is_last_suggestion fuel st = none := by
  induction fuel with
  | zero => intro st; rfl
  | succ fuel ih =>
    intro st
    unfold allocateLoop
    split
    · rfl
    next gap hget =>
      dsimp only
      by_cases hrem : gap.duration - dget st.gap_usage gap.gap_id 0 ≤ tolerance
      · rw [if_pos hrem]
        split
        · rfl
        next st2 hshift => exact ih st2
      · rw [if_neg hrem]
        have hrej : placementRejected euclidean_distance gaps gap_labels
            tolerance gap st.gap_index st.current_cursor
            (st.current_cursor.getD gap.start_location)
            (gap.duration - dget st.gap_usage gap.gap_id 0) s
            is_last_suggestion = true := by
          unfold placementRejected
          rw [hpref]
          simp [hp]
        rw [if_pos hrej]
        split
        · rfl
        next st2 hshift => exact ih st2

/-- Invariant packaged for the placement of a whole ordering: every block of
the final state is an original block or records one of the ordered
suggestions, with its duration, in some gap (first or last gap for
non-mandatory near-home suggestions); and the usage bound is preserved. -/
def GoInv (order : List Suggestion) (st st' : AssignSt) : Prop :=
  (∀ b ∈ st'.blocks, b ∈ st.blocks ∨
    ∃ s ∈ order, ∃ gap : Gap, ∃ i : ℕ,
      b.suggestion_id = s.suggestion_id ∧ b.duration = s.duration ∧
      gaps.get? i = some gap ∧ b.gap_id = gap.gap_id ∧
      (s.location_preference = some "near_home" →
        ¬(MANDATORY_NEED_THRESHOLD - tolerance ≤ s.need) →
        i = 0 ∨ i = gaps.length - 1)) ∧
  ((gaps.map Gap.gap_id).Nodup → (∀ s ∈ order, 0 < s.duration) →
    UsageOk gaps tolerance st.gap_usage → UsageOk gaps tolerance st'.gap_usage)

/-- `AllocInv` for a single suggestion entails `GoInv` composition on the left
of an order. -/
theorem goInv_cons (s : Suggestion) (rest : List Suggestion)
    (st stm st' : AssignSt)
    (halloc : AllocInv gaps tolerance s st stm)
    (hrest : GoInv gaps tolerance rest stm st') :
    GoInv gaps tolerance (s :: rest) st st' := by
  obtain ⟨b0, gap0, i0, hb0, hid0, hdur0, hget0, hgid0, hnear0, hus0⟩ := halloc
  obtain ⟨hblocks, husage⟩ := hrest
  constructor
  · intro b hb
    rcases hblocks b hb with hmem | ⟨s', hs', rest'⟩
    · rw [hb0] at hmem
      rcases List.mem_append.mp hmem with hmem | hmem
      · exact Or.inl hmem
      · right
        have hb0' := List.mem_singleton.mp hmem
        subst hb0'
        exact ⟨s, List.mem_cons_self s rest, gap0, i0, hid0, hdur0, hget0,
          hgid0, hnear0⟩
    · exact Or.inr ⟨s', List.mem_cons_of_mem s hs', rest'⟩
  · intro hids hsd hok
    refine husage hids (fun t ht => hsd t (List.mem_cons_of_mem s ht)) ?_
    exact hus0 hids (hsd s (List.mem_cons_self s rest)) hok

/-- Inversion for `assignGo`. -/
theorem assignGo_inversion (order : List Suggestion) :
    ∀ st st' : AssignSt,
    assignGo euclidean_distance gaps gap_labels tolerance order st = some st' →
    GoInv gaps tolerance order st st' := by
  induction order with
  | nil =>
    intro st st' h
    unfold assignGo at h
    injection h with h
    subst h
    exact ⟨fun b hb => Or.inl hb, fun _ _ hok => hok⟩
  | cons s rest ih =>
    cases rest with
    | nil =>
      intro st st' h
      unfold assignGo allocate_suggestion at h
      have halloc := allocateLoop_inversion euclidean_distance gaps gap_labels
        tolerance s true (gaps.length + 1) st st' h
      exact goInv_cons gaps tolerance s [] st st' st' halloc
        ⟨fun b hb => Or.inl hb, fun _ _ hok => hok⟩
    | cons s2 rest2 =>
      intro st st' h
      unfold assignGo at h
      split at h
      · exact Option.noConfusion h
      next stm hmid =>
        have halloc := allocateLoop_inversion euclidean_distance gaps
          gap_labels tolerance s false (gaps.length + 1) st stm
          (by
            unfold allocate_suggestion at hmid
            exact hmid)
        exact goInv_cons gaps tolerance s (s2 :: rest2) st stm st'
          halloc (ih stm st' h)

/-- `assignGo` fails when the order contains a suggestion with an unsupported
location preference. -/
theorem assignGo_unsupported (order : List Suggestion)
    (hbad : ∃ s ∈ order, ∃ p, s.location_preference = some p ∧ p ≠ "near_home") :
    ∀ st : AssignSt,
    assignGo euclidean_distance gaps gap_labels tolerance order st = none := by
  induction order with
  | nil =>
    obtain ⟨s, hs, -⟩ := hbad
    exact absurd hs (List.not_mem_nil s)
  | cons s rest ih =>
    intro st
    by_cases hs : ∃ p, s.location_preference = some p ∧ p ≠ "near_home"
    · obtain ⟨p, hpref, hp⟩ := hs
      cases rest with
      | nil =>
        unfold assignGo allocate_suggestion
        exact allocateLoop_unsupported euclidean_distance gaps gap_labels
          tolerance s p hpref hp true (gaps.length + 1) st
      | cons s2 rest2 =>
        unfold assignGo allocate_suggestion
        rw [allocateLoop_unsupported euclidean_distance gaps gap_labels
          tolerance s p hpref hp false (gaps.length + 1) st]
    · have hbad' : ∃ t ∈ rest, ∃ p, t.location_preference = some p ∧
          p ≠ "near_home" := by
        obtain ⟨t, ht, htp⟩ := hbad
        rcases List.mem_cons.mp ht with rfl | ht'
        · exact absurd htp hs
        · exact ⟨t, ht', htp⟩
      cases rest with
      | nil =>
        obtain ⟨t, ht, -⟩ := hbad'
        exact absurd ht (List.not_mem_nil t)
      | cons s2 rest2 =>
        unfold assignGo
        split
        · rfl
        next stm hmid => exact ih hbad' stm

/-- The usage list of the carried-over allocation state (empty when there is
none). -/
def initialUsage (initial : Option AllocationState) : List (String × ℚ) :=
  match initial with
  | none => []
  | some init => init.gap_usage

/-- The fresh per-gap usage dict `{gap.gap_id: 0.0 for gap in gaps}` satisfies
the usage bound. -/
theorem usageOk_base (htol : 0 ≤ tolerance) (hgdur : ∀ g ∈ gaps, 0 < g.duration) :
    UsageOk gaps tolerance (gaps.map (fun gap => (gap.gap_id, (0 : ℚ)))) := by
  intro g hg
  rcases dget_mem_or_default (gaps.map (fun gap => (gap.gap_id, (0 : ℚ))))
      g.gap_id 0 with h | h
  · rw [h]; have := hgdur g hg; linarith
  · obtain ⟨g', -, hg'⟩ := List.mem_map.mp h
    have : dget (gaps.map (fun gap => (gap.gap_id, (0 : ℚ)))) g.gap_id 0 = 0 := by
      have := congrArg Prod.snd hg'
      simpa using this.symm
    rw [this]
    have := hgdur g hg
    linarith

/-- Inversion for `assignFinish`: the blocks are unchanged and the usage bound
is preserved. -/
theorem assignFinish_inversion (st : AssignSt)
    (blocks : List ScheduledBlock) (state : AllocationState)
    (logs : List MovementLogEntry)
    (h : assignFinish euclidean_distance gaps gap_labels tolerance st =
      some (blocks, state, logs)) :
    blocks = st.blocks ∧
    ((gaps.map Gap.gap_id).Nodup → UsageOk gaps tolerance st.gap_usage →
      UsageOk gaps tolerance state.gap_usage) := by
  unfold assignFinish at h
  split at h
  · simp only [Option.some.injEq, Prod.mk.injEq] at h
    obtain ⟨hb, hs, -⟩ := h
    refine ⟨hb.symm, ?_⟩
    intro hids hok
    rw [← hs]
    exact hok
  next gap hget =>
    dsimp only at h
    split at h
    · exact Option.noConfusion h
    next distance minutes from_label to_label hexit =>
      have hbound := ensure_gap_exit_ok_some euclidean_distance gap_labels
        tolerance st.gap_usage gap (st.current_cursor.getD gap.start_location)
        st.current_label _ hexit
      by_cases htm : tolerance < minutes
      · rw [if_pos htm] at h
        simp only [Option.some.injEq, Prod.mk.injEq] at h
        obtain ⟨hb, hs, -⟩ := h
        refine ⟨hb.symm, ?_⟩
        intro hids hok
        rw [← hs]
        refine usageOk_dincr gaps tolerance hids st.gap_usage gap
          (List.get?_mem hget) minutes ?_ hok
        have := hbound.2
        dsimp only at this
        linarith
      · rw [if_neg htm] at h
        simp only [Option.some.injEq, Prod.mk.injEq] at h
        obtain ⟨hb, hs, -⟩ := h
        refine ⟨hb.symm, ?_⟩
        intro hids hok
        rw [← hs]
        exact hok

/-- Inversion for `assign_order_to_gaps`: block provenance and preservation of
the per-gap usage bound. -/
theorem assign_order_to_gaps_inversion
    (ordered : List Suggestion) (initial : Option AllocationState)
    (blocks : List ScheduledBlock) (state : AllocationState)
    (logs : List MovementLogEntry)
    (h : assign_order_to_gaps euclidean_distance gaps gap_labels tolerance
      ordered initial = some (blocks, state, logs)) :
    (∀ b ∈ blocks, ∃ s ∈ ordered, ∃ gap : Gap, ∃ i : ℕ,
      b.suggestion_id = s.suggestion_id ∧ b.duration = s.duration ∧
      gaps.get? i = some gap ∧ b.gap_id = gap.gap_id ∧
      (s.location_preference = some "near_home" →
        ¬(MANDATORY_NEED_THRESHOLD - tolerance ≤ s.need) →
        i = 0 ∨ i = gaps.length - 1)) ∧
    ((gaps.map Gap.gap_id).Nodup → 0 ≤ tolerance →
      (∀ g ∈ gaps, 0 < g.duration) → (∀ s ∈ ordered, 0 < s.duration) →
      (∀ g ∈ gaps, ∀ v : ℚ, (g.gap_id, v) ∈ initialUsage initial →
        v ≤ g.duration + tolerance) →
      UsageOk gaps tolerance state.gap_usage) := by
  cases ordered with
  | nil =>
    simp only [assign_order_to_gaps, Option.some.injEq, Prod.mk.injEq] at h
    obtain ⟨hb, hs, hl⟩ := h
    subst hb hs
    refine ⟨fun b hb => absurd hb (List.not_mem_nil b), ?_⟩
    intro hids htol hgdur hsdur hinit
    cases initial with
    | none =>
      simp only [Option.getD_none]
      exact usageOk_base gaps tolerance htol hgdur
    | some init =>
      simp only [Option.getD_some]
      intro g hg
      rcases dget_mem_or_default init.gap_usage g.gap_id 0 with h | h
      · rw [h]; have := hgdur g hg; linarith
      · exact hinit g hg _ h
  | cons s rest =>
    have hst0blocks : (initialAssignSt gaps initial).blocks = [] := by
      cases initial <;> rfl
    have hst0ok : (gaps.map Gap.gap_id).Nodup → 0 ≤ tolerance →
        (∀ g ∈ gaps, 0 < g.duration) →
        (∀ g ∈ gaps, ∀ v : ℚ, (g.gap_id, v) ∈ initialUsage initial →
          v ≤ g.duration + tolerance) →
        UsageOk gaps tolerance (initialAssignSt gaps initial).gap_usage := by
      intro hids htol hgdur hinit
      cases initial with
      | none => exact usageOk_base gaps tolerance htol hgdur
      | some init =>
        intro g hg
        exact dget_dupdate_le _ init.gap_usage g.gap_id _
          (fun v hv => hinit g hg v hv)
          (usageOk_base gaps tolerance htol hgdur g hg)
    unfold assign_order_to_gaps at h
    dsimp only at h
    split at h
    · exact Option.noConfusion h
    next st hgo =>
      have hGo := assignGo_inversion euclidean_distance gaps gap_labels
        tolerance (s :: rest) (initialAssignSt gaps initial) st hgo
      have hfin := assignFinish_inversion euclidean_distance gaps gap_labels
        tolerance st blocks state logs h
      refine ⟨?_, ?_⟩
      · intro b hb
        rw [hfin.1] at hb
        rcases hGo.1 b hb with hmem | hprov
        · rw [hst0blocks] at hmem
          exact absurd hmem (List.not_mem_nil b)
        · exact hprov
      · intro hids htol hgdur hsdur hinit
        exact hfin.2 hids (hGo.2 hids hsdur (hst0ok hids htol hgdur hinit))

end CapacityInv

/-! ### C5: the capacity-conservation claim -/

/-- C5 (amended): for every call to `assign_order_to_gaps` that returns a
result, and for every gap — provided the gap ids are distinct, the tolerance is
non-negative, gap and suggestion durations are positive (the constructors
enforce this), and every usage entry carried over in the initial allocation
state already respects its gap's bound — the total minutes recorded against
that gap (activity durations plus inserted travel legs, including carried-over
usage) never exceed that gap's duration by more than the tolerance.  The
amendment: the bound on the carried-over usage is required, because the source
passes an over-full initial state straight through (see the counterexample)
rather than enforcing the bound itself. -/
theorem assign_order_to_gaps_capacity
    (euclidean_distance : Coordinate → Coordinate → ℚ)
    (gaps : List Gap) (gap_labels : List (String × String × String))
    (tolerance : ℚ) (ordered : List Suggestion)
    (initial : Option AllocationState) (blocks : List ScheduledBlock)
    (state : AllocationState) (logs : List MovementLogEntry)
    (hids : (gaps.map Gap.gap_id).Nodup) (htol : 0 ≤ tolerance)
    (hgdur : ∀ g ∈ gaps, 0 < g.duration)
    (hsdur : ∀ s ∈ ordered, 0 < s.duration)
    (hinit : ∀ g ∈ gaps, ∀ v : ℚ, (g.gap_id, v) ∈ initialUsage initial →
      v ≤ g.duration + tolerance)
    (h : assign_order_to_gaps euclidean_distance gaps gap_labels tolerance
      ordered initial = some (blocks, state, logs)) :
    ∀ g ∈ gaps, dget state.gap_usage g.gap_id 0 ≤ g.duration + tolerance :=
  (assign_order_to_gaps_inversion euclidean_distance gaps gap_labels tolerance
    ordered initial blocks state logs h).2 hids htol hgdur hsdur hinit

/-- Witness for C5 at a concrete input: one mandatory 4-minute suggestion
placed into the 100-minute gap. -/
theorem assign_order_to_gaps_capacity_witness :
    dget ([("g1", 4)] : List (String × ℚ)) "g1" 0 ≤
      gap100.duration + 1/1000000 :=
  assign_order_to_gaps_capacity dist0 [gap100] (resolve_gap_labels [gap100])
    (1/1000000) [mand4] none
    [⟨"m4", "g1", 0, 4, (0, 0)⟩] ⟨[("g1", 4)], 1, none, none, false⟩ []
    (by simp) (by norm_num)
    (by intro g hg; simp only [List.mem_singleton] at hg; subst hg;
        norm_num [gap100])
    (by intro s hs; simp only [List.mem_singleton] at hs; subst hs;
        norm_num [mand4])
    (by intro g hg v hv; simp [initialUsage] at hv)
    (by norm_num [assign_order_to_gaps, initialAssignSt, assignFinish,
        assignGo, allocate_suggestion, allocateLoop, shift_to_next_gap,
        ensure_gap_exit_ok, placementRejected, travel_minutes_between, dist0,
        gap100, mand4, resolve_gap_labels, orLabel, dset, dget, dincr,
        dupdate, gap_start_label, gap_end_label, AssignSt.toAlloc, HOME_LABEL,
        MANDATORY_NEED_THRESHOLD, MINUTES_PER_DISTANCE_UNIT])
    gap100 (by simp)

/-- C5 counterexample: with an empty ordering, `assign_order_to_gaps` returns
the carried-over allocation state unchanged, so a gap whose carried usage
already exceeds its duration by far more than the tolerance appears in the
returned result — the claim fails as stated for calls with such initial
states. -/
theorem assign_order_to_gaps_capacity_counterexample :
    (assign_order_to_gaps dist0 [gap100] (resolve_gap_labels [gap100])
        (1/1000000) [] (some ⟨[("g1", 500)], 0, none, none, false⟩)).map
      (fun r => dget r.2.1.gap_usage "g1" 0) = some 500 ∧
    gap100.duration + 1/1000000 < 500 := by
  constructor
  · rfl
  · norm_num [gap100]









/-! ### Permutation enumeration lemmas (for the ordering search) -/

/-- Every list is a permutation of the head-at-index-`i` decomposition. -/
theorem perm_cons_eraseIdx {α : Type} :
    ∀ (l : List α) (i : ℕ) (h : i < l.length),
    l.Perm (l.get ⟨i, h⟩ :: l.eraseIdx i) := by
  intro l
  induction l with
  | nil => intro i h; exact absurd h (by simp)
  | cons a as ih =>
    intro i h
    cases i with
    | zero => simp [List.eraseIdx]
    | succ i =>
      have hi : i < as.length := by simpa using h
      have h1 := (ih i hi).cons a
      have h2 : (a :: as.get ⟨i, hi⟩ :: as.eraseIdx i).Perm
          (as.get ⟨i, hi⟩ :: a :: as.eraseIdx i) := List.Perm.swap _ _ _
      exact h1.trans h2

/-- `pyPermAux` with sufficient fuel enumerates exactly the permutations. -/
theorem mem_pyPermAux {α : Type} :
    ∀ (fuel : ℕ) (l : List α), l.length ≤ fuel →
    ∀ π : List α, π ∈ pyPermAux fuel l ↔ π.Perm l := by
  intro fuel
  induction fuel with
  | zero =>
    intro l hl π
    have : l = [] := List.length_eq_zero.mp (Nat.le_zero.mp hl)
    subst this
    simp only [pyPermAux, List.mem_singleton]
    exact ⟨fun h => h ▸ List.Perm.refl [], fun h => h.eq_nil⟩
  | succ fuel ih =>
    intro l hl π
    cases l with
    | nil =>
      simp only [pyPermAux, List.mem_singleton]
      exact ⟨fun h => h ▸ List.Perm.refl [], fun h => h.eq_nil⟩
    | cons a as =>
      rw [pyPermAux]
      simp only [List.mem_flatMap, List.mem_map]
      constructor
      · rintro ⟨i, -, t, ht, rfl⟩
        have hlen : ((a :: as).eraseIdx i).length ≤ fuel := by
          rw [List.length_eraseIdx]
          simp only [i.isLt, if_pos]
          simp only [List.length_cons] at hl ⊢
          omega
        have : t.Perm ((a :: as).eraseIdx i) :=
          (ih ((a :: as).eraseIdx i) hlen t).mp ht
        exact ((this.cons _).trans
          (perm_cons_eraseIdx (a :: as) i.val i.isLt).symm)
      · intro hπ
        cases π with
        | nil =>
          have := hπ.length_eq
          simp at this
        | cons x t =>
          have hx : x ∈ a :: as := hπ.subset (List.mem_cons_self x t)
          obtain ⟨i, hi⟩ := List.mem_iff_get.mp hx
          refine ⟨i, List.mem_finRange i, t, ?_, by rw [hi]⟩
          have hlen : ((a :: as).eraseIdx i).length ≤ fuel := by
            rw [List.length_eraseIdx]
            simp only [i.isLt, if_pos]
            simp only [List.length_cons] at hl ⊢
            omega
          refine (ih ((a :: as).eraseIdx i) hlen t).mpr ?_
          have h1 : (x :: t).Perm ((a :: as).get i :: (a :: as).eraseIdx i) :=
            hπ.trans (perm_cons_eraseIdx (a :: as) i.val i.isLt)
          rw [hi] at h1
          exact h1.cons_inv

/-- `pyPermutations` enumerates exactly the permutations of its input. -/
theorem mem_pyPermutations {α : Type} (l π : List α) :
    π ∈ pyPermutations l ↔ π.Perm l :=
  mem_pyPermAux l.length l le_rfl π

/-- `pyPermutations` is never empty. -/
theorem pyPermutations_ne_nil {α : Type} (l : List α) :
    pyPermutations l ≠ [] :=
  List.ne_nil_of_mem ((mem_pyPermutations l l).mpr (List.Perm.refl l))

/-- The permutation count: `pyPermutations l` has `l.length !` elements. -/
theorem length_pyPermutations {α : Type} :
    ∀ (fuel : ℕ) (l : List α), l.length ≤ fuel →
    (pyPermAux fuel l).length = l.length.factorial := by
  intro fuel
  induction fuel with
  | zero =>
    intro l hl
    have : l = [] := List.length_eq_zero.mp (Nat.le_zero.mp hl)
    subst this
    rfl
  | succ fuel ih =>
    intro l hl
    cases l with
    | nil => rfl
    | cons a as =>
      rw [pyPermAux, List.length_flatMap]
      have hconst : ∀ i : Fin (a :: as).length,
          (List.length ∘ fun i : Fin (a :: as).length =>
            (pyPermAux fuel ((a :: as).eraseIdx ↑i)).map
              ((a :: as).get i :: ·)) i = as.length.factorial := by
        intro i
        simp only [Function.comp_apply, List.length_map]
        have hlen : ((a :: as).eraseIdx ↑i).length = as.length := by
          rw [List.length_eraseIdx]
          simp [i.isLt]
        rw [ih ((a :: as).eraseIdx ↑i) (by rw [hlen]; simpa using hl), hlen]
      rw [List.map_congr_left (fun i _ => hconst i)]
      simp [List.map_const, Nat.factorial_succ, Nat.mul_comm]

/-! ### The best-order fold: first-minimum characterization -/

section BestFold

variable (euclidean_distance : Coordinate → Coordinate → ℚ)
variable (start_location end_location : Option Coordinate)

/-- Invariant of the best-order fold after processing the permutations in
`processed`: the count equals the number processed, and the incumbent (if any)
is the first permutation of `processed` realising the minimal travel cost. -/
def BestAcc (processed : List (List Suggestion))
    (acc : Option (List Suggestion × ℚ) × ℕ) : Prop :=
  acc.2 = processed.length ∧
  ((acc.1 = none ∧ processed = []) ∨
    (∃ bo bc, acc.1 = some (bo, bc) ∧
      bc = routeCost euclidean_distance start_location end_location bo ∧
      (∀ p ∈ processed,
        bc ≤ routeCost euclidean_distance start_location end_location p) ∧
      ∃ l1 l2, processed = l1 ++ bo :: l2 ∧
        ∀ p ∈ l1,
          bc < routeCost euclidean_distance start_location end_location p))

/-- One `bestStep` preserves the fold invariant. -/
theorem bestStep_preserves (processed : List (List Suggestion))
    (acc : Option (List Suggestion × ℚ) × ℕ) (p : List Suggestion)
    (h : BestAcc euclidean_distance start_location end_location processed acc) :
    BestAcc euclidean_distance start_location end_location (processed ++ [p])
      (bestStep euclidean_distance start_location end_location acc p) := by
  obtain ⟨hcount, hbest⟩ := h
  rcases hbest with ⟨hnone, hproc⟩ | ⟨bo, bc, hsome, hbc, hmin, l1, l2, hsplit, hfirst⟩
  · subst hproc
    refine ⟨?_, Or.inr ⟨p, _, ?_, rfl, ?_, [], [], rfl, ?_⟩⟩
    · simp [bestStep, hnone, hcount]
    · simp [bestStep, hnone]
    · intro q hq
      rw [List.nil_append, List.mem_singleton] at hq
      subst hq
      exact le_refl _
    · intro q hq
      exact absurd hq (List.not_mem_nil q)
  · by_cases hlt : routeCost euclidean_distance start_location end_location p <
        bc
    · refine ⟨?_, Or.inr ⟨p, _, ?_, rfl, ?_, processed, [], by simp, ?_⟩⟩
      · simp [bestStep, hsome, hcount, if_pos hlt]
      · simp [bestStep, hsome, if_pos hlt]
      · intro q hq
        rcases List.mem_append.mp hq with hq | hq
        · exact le_of_lt (lt_of_lt_of_le hlt (hmin q hq))
        · rw [List.mem_singleton.mp hq]
      · intro q hq
        exact lt_of_lt_of_le hlt (hmin q hq)
    · refine ⟨?_, Or.inr ⟨bo, bc, ?_, hbc, ?_, l1, l2 ++ [p], ?_, hfirst⟩⟩
      · simp [bestStep, hsome, hcount, if_neg hlt]
      · simp [bestStep, hsome, if_neg hlt]
      · intro q hq
        rcases List.mem_append.mp hq with hq | hq
        · exact hmin q hq
        · rw [List.mem_singleton.mp hq]
          exact le_of_not_lt hlt
      · rw [hsplit]
        simp

/-- The best-order fold satisfies the invariant over any permutation list. -/
theorem foldl_bestStep_spec :
    ∀ (remaining processed : List (List Suggestion))
      (acc : Option (List Suggestion × ℚ) × ℕ),
    BestAcc euclidean_distance start_location end_location processed acc →
    BestAcc euclidean_distance start_location end_location
      (processed ++ remaining)
      (remaining.foldl (bestStep euclidean_distance start_location
        end_location) acc) := by
  intro remaining
  induction remaining with
  | nil => intro processed acc h; simpa using h
  | cons p rest ih =>
    intro processed acc h
    have := ih (processed ++ [p]) _
      (bestStep_preserves euclidean_distance start_location end_location
        processed acc p h)
    simpa using this

end BestFold

/-! ### C8: the search-size error condition of `enumerate_best_order` -/

/-- C8: `enumerate_best_order` signals an error if and only if the number of
candidate suggestions exceeds `permutation_limit`; an empty candidate list
yields an empty ordering, cost 0 and 0 permutations examined without error, and
any list of length at most the limit returns normally. -/
theorem enumerate_best_order_error_iff
    (euclidean_distance : Coordinate → Coordinate → ℚ)
    (suggestions : List Suggestion)
    (start_location end_location : Option Coordinate)
    (permutation_limit : ℕ) :
    ((∃ e, enumerate_best_order euclidean_distance suggestions start_location
        end_location permutation_limit = .error e) ↔
      permutation_limit < suggestions.length) ∧
    (suggestions = [] →
      enumerate_best_order euclidean_distance suggestions start_location
        end_location permutation_limit = .ok ([], 0, 0)) ∧
    (suggestions.length ≤ permutation_limit →
      ∃ r, enumerate_best_order euclidean_distance suggestions start_location
        end_location permutation_limit = .ok r) := by
  have hok : suggestions.length ≤ permutation_limit →
      ∃ r, enumerate_best_order euclidean_distance suggestions start_location
        end_location permutation_limit = .ok r := by
    intro hle
    unfold enumerate_best_order
    by_cases h0 : suggestions.length = 0
    · rw [if_pos h0]
      exact ⟨_, rfl⟩
    · rw [if_neg h0, if_neg (not_lt.mpr hle)]
      have hinv := foldl_bestStep_spec euclidean_distance start_location
        end_location (pyPermutations suggestions) [] (none, 0)
        ⟨rfl, Or.inl ⟨rfl, rfl⟩⟩
      rcases hinv.2 with ⟨-, hnil⟩ | ⟨bo, bc, hsome, -⟩
      · exact absurd (by simpa using hnil) (pyPermutations_ne_nil suggestions)
      · simp only [hsome]
        exact ⟨_, rfl⟩
  refine ⟨⟨?_, ?_⟩, ?_, hok⟩
  · rintro ⟨e, he⟩
    by_contra hle
    obtain ⟨r, hr⟩ := hok (le_of_not_lt hle)
    rw [hr] at he
    exact Except.noConfusion he
  · intro hlt
    have h0 : suggestions.length ≠ 0 := by omega
    unfold enumerate_best_order
    rw [if_neg h0, if_pos hlt]
    exact ⟨_, rfl⟩
  · intro h0
    subst h0
    rfl

/-- Witness for C8: with two candidates and a limit of one, the search errors. -/
theorem enumerate_best_order_error_iff_witness :
    ∃ e, enumerate_best_order dist0 [mand6, mand4] none none 1 = .error e :=
  (enumerate_best_order_error_iff dist0 [mand6, mand4] none none 1).1.mpr
    (by decide)

/-! ### C4: optimality of `enumerate_best_order` -/

/-- C4: for a non-empty candidate list of size at most `permutation_limit`,
`enumerate_best_order` returns an ordering that is a permutation of the input
whose total travel minutes (start anchor to first, consecutive legs, last to
end anchor, skipping absent anchors) are minimal over all permutations,
together with that minimal cost and a permutation count equal to n!; among
ties, the returned ordering is the first minimal permutation in the fixed
enumeration order (lexicographic by input index, as `itertools.permutations`
yields them). -/
theorem enumerate_best_order_optimal
    (euclidean_distance : Coordinate → Coordinate → ℚ)
    (suggestions : List Suggestion)
    (start_location end_location : Option Coordinate) (permutation_limit : ℕ)
    (hne : suggestions ≠ [])
    (hlim : suggestions.length ≤ permutation_limit) :
    ∃ order : List Suggestion,
      enumerate_best_order euclidean_distance suggestions start_location
          end_location permutation_limit =
        .ok (order,
          routeCost euclidean_distance start_location end_location order,
          suggestions.length.factorial) ∧
      order.Perm suggestions ∧
      (∀ π : List Suggestion, π.Perm suggestions →
        routeCost euclidean_distance start_location end_location order ≤
          routeCost euclidean_distance start_location end_location π) ∧
      (∃ l1 l2, pyPermutations suggestions = l1 ++ order :: l2 ∧
        ∀ p ∈ l1,
          routeCost euclidean_distance start_location end_location order <
            routeCost euclidean_distance start_location end_location p) := by
  have h0 : suggestions.length ≠ 0 := fun hc =>
    hne (List.length_eq_zero.mp hc)
  have hinv := foldl_bestStep_spec euclidean_distance start_location
    end_location (pyPermutations suggestions) [] (none, 0)
    ⟨rfl, Or.inl ⟨rfl, rfl⟩⟩
  rcases hinv.2 with ⟨-, hnil⟩ | ⟨bo, bc, hsome, hbc, hmin, l1, l2, hsplit, hfirst⟩
  · exact absurd (by simpa using hnil) (pyPermutations_ne_nil suggestions)
  · have hcount : (List.foldl (bestStep euclidean_distance start_location
        end_location) (none, 0) (pyPermutations suggestions)).2 =
        suggestions.length.factorial := by
      rw [hinv.1]
      simpa using length_pyPermutations suggestions.length suggestions le_rfl
    rw [List.nil_append] at hsplit
    have hmem : bo ∈ pyPermutations suggestions := by
      rw [hsplit]
      exact List.mem_append.mpr (Or.inr (List.mem_cons_self bo l2))
    refine ⟨bo, ?_, ?_, ?_, l1, l2, hsplit, ?_⟩
    · unfold enumerate_best_order
      rw [if_neg h0, if_neg (not_lt.mpr hlim)]
      simp only [hsome]
      rw [← hbc, hcount]
    · exact (mem_pyPermutations suggestions bo).mp hmem
    · intro π hπ
      rw [← hbc]
      exact hmin π (by simpa using (mem_pyPermutations suggestions π).mpr hπ)
    · intro p hp
      rw [← hbc]
      exact hfirst p hp

/-- Witness for C4 at a concrete two-candidate input. -/
theorem enumerate_best_order_optimal_witness :
    ∃ order : List Suggestion,
      enumerate_best_order dist0 [mand6, mand4] none none 2 =
        .ok (order, routeCost dist0 none none order,
          ([mand6, mand4] : List Suggestion).length.factorial) ∧
      order.Perm [mand6, mand4] ∧
      (∀ π : List Suggestion, π.Perm [mand6, mand4] →
        routeCost dist0 none none order ≤ routeCost dist0 none none π) ∧
      (∃ l1 l2, pyPermutations [mand6, mand4] = l1 ++ order :: l2 ∧
        ∀ p ∈ l1,
          routeCost dist0 none none order < routeCost dist0 none none p) :=
  enumerate_best_order_optimal dist0 [mand6, mand4] none none 2
    (by simp) (by simp)

/-! ### C3: exact optimality of the knapsack selector -/

/-- Processing one more item never decreases a DP table entry. -/
theorem dpRev_step_ge {α : Type} (x : ℕ × ℚ × α) (rest : List (ℕ × ℚ × α))
    (w : ℕ) : dpRev rest w ≤ dpRev (x :: rest) w := by
  rw [dpRev]
  split
  next hc => exact le_of_lt hc.2
  next hc => exact le_refl _

/-- Taking the new item is never better than the new DP table entry. -/
theorem dpRev_step_take {α : Type} (x : ℕ × ℚ × α) (rest : List (ℕ × ℚ × α))
    (w : ℕ) (hw : x.1 ≤ w) :
    dpRev rest (w - x.1) + x.2.1 ≤ dpRev (x :: rest) w := by
  rw [dpRev]
  split
  next hc => exact le_refl _
  next hc =>
    rw [not_and] at hc
    exact le_of_not_lt (hc hw)

/-- Upper bound: every sublist within the weight budget has value at most the
DP table entry. -/
theorem dpRev_upper {α : Type} :
    ∀ (rev S : List (ℕ × ℚ × α)) (w : ℕ), S.Sublist rev →
    (S.map (fun x => x.1)).sum ≤ w →
    (S.map (fun x => x.2.1)).sum ≤ dpRev rev w := by
  intro rev
  induction rev with
  | nil =>
    intro S w hS hw
    rw [List.sublist_nil.mp hS]
    simp [dpRev]
  | cons x rest ih =>
    intro S w hS hw
    rcases List.sublist_cons_iff.mp hS with hS | ⟨S', rfl, hS'⟩
    · exact le_trans (ih S w hS hw) (dpRev_step_ge x rest w)
    · simp only [List.map_cons, List.sum_cons] at hw ⊢
      have hxw : x.1 ≤ w := le_trans (Nat.le_add_right _ _) hw
      have hS'w : (S'.map (fun x => x.1)).sum ≤ w - x.1 := by omega
      have := ih S' (w - x.1) hS' hS'w
      have hstep := dpRev_step_take x rest w hxw
      linarith

/-- The backtracking extraction is a sublist within budget achieving the DP
value. -/
theorem knapChosenRev_spec {α : Type} :
    ∀ (rev : List (ℕ × ℚ × α)) (w : ℕ),
    (knapChosenRev rev w).Sublist rev ∧
    ((knapChosenRev rev w).map (fun x => x.1)).sum ≤ w ∧
    ((knapChosenRev rev w).map (fun x => x.2.1)).sum = dpRev rev w := by
  intro rev
  induction rev with
  | nil =>
    intro w
    exact ⟨List.Sublist.refl [], by simp [knapChosenRev],
      by simp [knapChosenRev, dpRev]⟩
  | cons x rest ih =>
    intro w
    rw [knapChosenRev, dpRev]
    split
    next hc =>
      obtain ⟨hsub, hwle, hval⟩ := ih (w - x.1)
      refine ⟨hsub.cons₂ x, ?_, ?_⟩
      · simp only [List.map_cons, List.sum_cons]
        omega
      · simp only [List.map_cons, List.sum_cons, hval]
        ring
    next hc =>
      obtain ⟨hsub, hwle, hval⟩ := ih w
      exact ⟨hsub.cons x, hwle, hval⟩

/-- `insertByScoreDesc` permutes the element into the list. -/
theorem insertByScoreDesc_perm (s : Suggestion) :
    ∀ l : List Suggestion, (insertByScoreDesc s l).Perm (s :: l) := by
  intro l
  induction l with
  | nil => exact List.Perm.refl _
  | cons t ts ih =>
    rw [insertByScoreDesc]
    split
    · exact List.Perm.refl _
    · exact (ih.cons t).trans (List.Perm.swap s t ts)

/-- The stable sort is a permutation of its input. -/
theorem sortByScoreDesc_perm (l : List Suggestion) :
    (sortByScoreDesc l).Perm l := by
  induction l with
  | nil => exact List.Perm.refl _
  | cons x xs ih =>
    exact (insertByScoreDesc_perm x (sortByScoreDesc xs)).trans (ih.cons x)

/-- `insertByScoreDesc` preserves descending sortedness. -/
theorem insertByScoreDesc_sorted (s : Suggestion) :
    ∀ l : List Suggestion,
    List.Sorted (fun a b => b.score ≤ a.score) l →
    List.Sorted (fun a b => b.score ≤ a.score) (insertByScoreDesc s l) := by
  intro l
  induction l with
  | nil => intro h; simp [insertByScoreDesc]
  | cons t ts ih =>
    intro h
    rw [List.sorted_cons] at h
    rw [insertByScoreDesc]
    split
    next hts =>
      rw [List.sorted_cons]
      refine ⟨?_, List.sorted_cons.mpr h⟩
      intro b hb
      rcases List.mem_cons.mp hb with rfl | hb
      · exact hts
      · exact le_trans (h.1 b hb) hts
    next hts =>
      rw [List.sorted_cons]
      refine ⟨?_, ih h.2⟩
      intro b hb
      have hb' : b ∈ s :: ts := (insertByScoreDesc_perm s ts).subset hb
      rcases List.mem_cons.mp hb' with rfl | hb'
      · exact le_of_lt (lt_of_not_le hts)
      · exact h.1 b hb'

/-- The stable sort is sorted by descending score. -/
theorem sortByScoreDesc_sorted (l : List Suggestion) :
    List.Sorted (fun a b => b.score ≤ a.score) (sortByScoreDesc l) := by
  induction l with
  | nil => simp [sortByScoreDesc]
  | cons x xs ih => exact insertByScoreDesc_sorted x (sortByScoreDesc xs) ih

/-- Python's `round` of a non-negative rational is non-negative. -/
theorem pyRound_nonneg (q : ℚ) (hq : 0 ≤ q) : 0 ≤ pyRound q := by
  have hf : (0 : ℤ) ≤ Int.floor q := Int.floor_nonneg.mpr hq
  unfold pyRound
  dsimp only
  split_ifs <;> omega

/-- C3: `greedy_select_candidates` returns the empty list when the capacity is
at most the tolerance; otherwise it returns a subset of the candidates whose
total discretized weight — each item weighing
`max(1, round(duration/resolution_minutes))` — is at most
`round(capacity/resolution_minutes)`, whose total score is maximal among all
subsets satisfying that weight bound, and which is sorted by descending
score.  (Stated for a non-negative tolerance and positive resolution, the
domain on which the Python original is defined.) -/
theorem greedy_select_candidates_spec
    (suggestions : List Suggestion) (gaps : List Gap) (_max_distance : ℚ)
    (capacity tolerance resolution_minutes : ℚ)
    (htol : 0 ≤ tolerance) (hres : 0 < resolution_minutes) :
    (capacity ≤ tolerance →
      greedy_select_candidates suggestions gaps _max_distance (some capacity)
        tolerance resolution_minutes = []) ∧
    (tolerance < capacity →
      (greedy_select_candidates suggestions gaps _max_distance (some capacity)
        tolerance resolution_minutes).Subperm suggestions ∧
      ((greedy_select_candidates suggestions gaps _max_distance (some capacity)
          tolerance resolution_minutes).map
        (knapWeight resolution_minutes)).sum ≤
        (pyRound (capacity / resolution_minutes)).toNat ∧
      (∀ T : List Suggestion, T.Sublist suggestions →
        (T.map (knapWeight resolution_minutes)).sum ≤
          (pyRound (capacity / resolution_minutes)).toNat →
        (T.map Suggestion.score).sum ≤
          ((greedy_select_candidates suggestions gaps _max_distance
            (some capacity) tolerance resolution_minutes).map
              Suggestion.score).sum) ∧
      List.Sorted (fun a b => b.score ≤ a.score)
        (greedy_select_candidates suggestions gaps _max_distance
          (some capacity) tolerance resolution_minutes)) := by
  constructor
  · intro hle
    unfold greedy_select_candidates
    simp only [Option.getD_some]
    rw [if_pos hle]
  · intro hlt
    have hcap : ¬capacity ≤ tolerance := not_le.mpr hlt
    have hW : knapCapacity resolution_minutes capacity =
        (pyRound (capacity / resolution_minutes)).toNat := by
      unfold knapCapacity
      have h0 : (0 : ℚ) ≤ capacity / resolution_minutes :=
        div_nonneg (le_of_lt (lt_of_le_of_lt htol hlt)) (le_of_lt hres)
      rw [max_eq_right (pyRound_nonneg _ h0)]
    have hdef : greedy_select_candidates suggestions gaps _max_distance
        (some capacity) tolerance resolution_minutes =
        sortByScoreDesc
          ((knapChosenRev
            ((suggestions.map (fun s =>
              (knapWeight resolution_minutes s, Suggestion.score s, s))).reverse)
            (knapCapacity resolution_minutes capacity)).map
            (fun x => x.2.2)) := by
      unfold greedy_select_candidates
      simp only [Option.getD_some]
      rw [if_neg hcap]
    have hrw : (suggestions.map (fun s =>
        (knapWeight resolution_minutes s, Suggestion.score s, s))).reverse =
        suggestions.reverse.map (fun s =>
          (knapWeight resolution_minutes s, Suggestion.score s, s)) :=
      (List.map_reverse _ _).symm
    rw [hrw] at hdef
    obtain ⟨hTsub, hTw, hTv⟩ := knapChosenRev_spec
      (suggestions.reverse.map (fun s =>
        (knapWeight resolution_minutes s, Suggestion.score s, s)))
      (knapCapacity resolution_minutes capacity)
    obtain ⟨C, hCsub, hCeq⟩ : ∃ C : List Suggestion,
        C.Sublist suggestions.reverse ∧
        knapChosenRev
          (suggestions.reverse.map (fun s =>
            (knapWeight resolution_minutes s, Suggestion.score s, s)))
          (knapCapacity resolution_minutes capacity) =
          C.map (fun s =>
            (knapWeight resolution_minutes s, Suggestion.score s, s)) :=
      List.sublist_map_iff.mp hTsub
    have hchosen : (knapChosenRev
        (suggestions.reverse.map (fun s =>
          (knapWeight resolution_minutes s, Suggestion.score s, s)))
        (knapCapacity resolution_minutes capacity)).map (fun x => x.2.2) = C := by
      rw [hCeq, List.map_map]
      exact List.map_id' C
    have hCw : (C.map (knapWeight resolution_minutes)).sum ≤
        (pyRound (capacity / resolution_minutes)).toNat := by
      rw [← hW]
      rw [hCeq, List.map_map] at hTw
      simpa [Function.comp] using hTw
    have hCv : (C.map Suggestion.score).sum = dpRev
        (suggestions.reverse.map (fun s =>
          (knapWeight resolution_minutes s, Suggestion.score s, s)))
        (knapCapacity resolution_minutes capacity) := by
      rw [hCeq, List.map_map] at hTv
      simpa [Function.comp] using hTv
    have hperm : (greedy_select_candidates suggestions gaps _max_distance
        (some capacity) tolerance resolution_minutes).Perm C := by
      rw [hdef, hchosen]
      exact sortByScoreDesc_perm C
    refine ⟨?_, ?_, ?_, ?_⟩
    · exact hperm.subperm.trans
        (hCsub.subperm.trans (List.reverse_perm suggestions).subperm)
    · rw [(hperm.map (knapWeight resolution_minutes)).sum_eq]
      exact hCw
    · intro T hT hTbound
      rw [(hperm.map Suggestion.score).sum_eq, hCv]
      have hS : ((T.reverse).map (fun s =>
          (knapWeight resolution_minutes s, Suggestion.score s, s))).Sublist
          (suggestions.reverse.map (fun s =>
            (knapWeight resolution_minutes s, Suggestion.score s, s))) :=
        hT.reverse.map _
      have hSw : (((T.reverse).map (fun s =>
          (knapWeight resolution_minutes s, Suggestion.score s, s))).map
          (fun x => x.1)).sum ≤ knapCapacity resolution_minutes capacity := by
        rw [List.map_map, hW]
        simpa [Function.comp, List.sum_reverse] using hTbound
      have := dpRev_upper _ _ _ hS hSw
      rw [List.map_map] at this
      simpa [Function.comp, List.sum_reverse] using this
    · rw [hdef, hchosen]
      exact sortByScoreDesc_sorted C

/-- Witness for C3 at a concrete input: capacity 10 with two candidates. -/
theorem greedy_select_candidates_spec_witness :
    ((10 : ℚ) ≤ 1/1000000 →
      greedy_select_candidates [mand6, mand4] [gap100] 3 (some 10) (1/1000000)
        1 = []) ∧
    ((1 : ℚ)/1000000 < 10 →
      (greedy_select_candidates [mand6, mand4] [gap100] 3 (some 10)
        (1/1000000) 1).Subperm [mand6, mand4] ∧
      ((greedy_select_candidates [mand6, mand4] [gap100] 3 (some 10)
          (1/1000000) 1).map (knapWeight 1)).sum ≤ (pyRound (10 / 1)).toNat ∧
      (∀ T : List Suggestion, T.Sublist [mand6, mand4] →
        (T.map (knapWeight 1)).sum ≤ (pyRound (10 / 1)).toNat →
        (T.map Suggestion.score).sum ≤
          ((greedy_select_candidates [mand6, mand4] [gap100] 3 (some 10)
            (1/1000000) 1).map Suggestion.score).sum) ∧
      List.Sorted (fun a b => b.score ≤ a.score)
        (greedy_select_candidates [mand6, mand4] [gap100] 3 (some 10)
          (1/1000000) 1)) :=
  greedy_select_candidates_spec [mand6, mand4] [gap100] 3 10 (1/1000000) 1
    (by norm_num) (by norm_num)

/-! ### Orchestrator-level helper lemmas -/

/-- `insertBlock` permutes the element into the list. -/
theorem insertBlock_perm (b : ScheduledBlock) :
    ∀ l : List ScheduledBlock, (insertBlock b l).Perm (b :: l) := by
  intro l
  induction l with
  | nil => exact List.Perm.refl _
  | cons t ts ih =>
    rw [insertBlock]
    split
    · exact List.Perm.refl _
    · exact (ih.cons t).trans (List.Perm.swap b t ts)

/-- The block sort is a permutation of its input. -/
theorem sortBlocks_perm (l : List ScheduledBlock) : (sortBlocks l).Perm l := by
  induction l with
  | nil => exact List.Perm.refl _
  | cons x xs ih =>
    exact (insertBlock_perm x (sortBlocks xs)).trans (ih.cons x)

/-- Every selected candidate is one of the input suggestions. -/
theorem greedy_select_candidates_subset (suggestions : List Suggestion)
    (gaps : List Gap) (_max_distance : ℚ) (available_minutes : Option ℚ)
    (tolerance resolution_minutes : ℚ) :
    ∀ x ∈ greedy_select_candidates suggestions gaps _max_distance
      available_minutes tolerance resolution_minutes, x ∈ suggestions := by
  intro x hx
  unfold greedy_select_candidates at hx
  dsimp only at hx
  split at hx
  · exact absurd hx (List.not_mem_nil x)
  · have hx' := (sortByScoreDesc_perm _).subset hx
    obtain ⟨y, hy, rfl⟩ := List.mem_map.mp hx'
    have hy' : y ∈ (suggestions.map (fun s =>
        (knapWeight resolution_minutes s, Suggestion.score s, s))).reverse :=
      (knapChosenRev_spec _ _).1.subset hy
    rw [List.mem_reverse] at hy'
    obtain ⟨s, hs, rfl⟩ := List.mem_map.mp hy'
    exact hs

/-- If an element is in a list but not in the list with `x` erased, it is `x`. -/
theorem eq_of_mem_not_mem_erase {α : Type} [DecidableEq α] {s x : α}
    {l : List α} (hs : s ∈ l) (hno : s ∉ l.erase x) : s = x := by
  by_contra hne
  exact hno ((List.mem_erase_of_ne hne).mpr hs)

/-- A `dincr` by a non-negative amount never decreases any dict entry. -/
theorem dget_le_dincr (d : List (String × ℚ)) (k k' : String) (v : ℚ)
    (hv : 0 ≤ v) : dget d k' 0 ≤ dget (dincr d k v) k' 0 := by
  rw [dget_dincr]
  split <;> linarith

/-- The guarded-erase fold over an order keeps any element not in the order. -/
theorem mem_foldl_erase_of_not_mem (order : List Suggestion) :
    ∀ (r : List Suggestion) (s : Suggestion), s ∈ r → s ∉ order →
    s ∈ order.foldl
      (fun r t => if r.contains t then r.erase t else r) r := by
  induction order with
  | nil => intro r s hs _; exact hs
  | cons t ts ih =>
    intro r s hs hno
    have hne : s ≠ t := fun hc => hno (hc ▸ List.mem_cons_self t ts)
    have hts : s ∉ ts := fun hc => hno (List.mem_cons_of_mem t hc)
    simp only [List.foldl_cons]
    split
    · exact ih (r.erase t) s ((List.mem_erase_of_ne hne).mpr hs) hts
    · exact ih r s hs hts

/-- `assign_order_to_gaps` fails when the ordering contains a suggestion with
an unsupported location preference. -/
theorem assign_order_to_gaps_unsupported
    (euclidean_distance : Coordinate → Coordinate → ℚ)
    (gaps : List Gap) (gap_labels : List (String × String × String))
    (tolerance : ℚ) (ordered : List Suggestion)
    (initial : Option AllocationState)
    (hbad : ∃ s ∈ ordered, ∃ p, s.location_preference = some p ∧
      p ≠ "near_home") :
    assign_order_to_gaps euclidean_distance gaps gap_labels tolerance ordered
      initial = none := by
  cases ordered with
  | nil =>
    obtain ⟨s, hs, -⟩ := hbad
    exact absurd hs (List.not_mem_nil s)
  | cons s rest =>
    unfold assign_order_to_gaps
    dsimp only
    rw [assignGo_unsupported euclidean_distance gaps gap_labels tolerance
      (s :: rest) hbad _]

/-- A successful `enumerate_best_order` returns an ordering drawn from the
candidates. -/
theorem enumerate_best_order_mem
    (euclidean_distance : Coordinate → Coordinate → ℚ)
    (suggestions : List Suggestion)
    (start_location end_location : Option Coordinate) (permutation_limit : ℕ)
    (order : List Suggestion) (c : ℚ) (n : ℕ)
    (h : enumerate_best_order euclidean_distance suggestions start_location
      end_location permutation_limit = .ok (order, c, n)) :
    ∀ x ∈ order, x ∈ suggestions := by
  unfold enumerate_best_order at h
  by_cases h0 : suggestions.length = 0
  · rw [if_pos h0] at h
    injection h with h
    have horder : order = [] := (congrArg (fun r => r.1) h).symm
    rw [horder]
    intro x hx
    exact absurd hx (List.not_mem_nil x)
  · rw [if_neg h0] at h
    by_cases hlim : permutation_limit < suggestions.length
    · rw [if_pos hlim] at h
      exact Except.noConfusion h
    · rw [if_neg hlim] at h
      have hinv := foldl_bestStep_spec euclidean_distance start_location
        end_location (pyPermutations suggestions) [] (none, 0)
        ⟨rfl, Or.inl ⟨rfl, rfl⟩⟩
      rcases hinv.2 with ⟨-, hnil⟩ | ⟨bo, bc, hsome, -, -, l1, l2, hsplit, -⟩
      · exact absurd (by simpa using hnil) (pyPermutations_ne_nil suggestions)
      · simp only [hsome] at h
        injection h with h
        have hbo : bo = order := congrArg (fun r => r.1) h
        rw [List.nil_append] at hsplit
        have hmem : bo ∈ pyPermutations suggestions := by
          rw [hsplit]
          exact List.mem_append.mpr (Or.inr (List.mem_cons_self bo l2))
        have hperm := (mem_pyPermutations suggestions bo).mp hmem
        rw [hbo] at hperm
        exact fun x hx => hperm.subset hx

/-- Folding block-duration increments over blocks with non-negative durations
never decreases any allocated entry. -/
theorem dget_le_foldl_dincr :
    ∀ (blocks : List ScheduledBlock) (d : List (String × ℚ)) (k : String),
    (∀ b ∈ blocks, 0 ≤ b.duration) →
    dget d k 0 ≤ dget (blocks.foldl
      (fun d block => dincr d block.suggestion_id block.duration) d) k 0 := by
  intro blocks
  induction blocks with
  | nil => intro d k _; exact le_refl _
  | cons b rest ih =>
    intro d k hpos
    simp only [List.foldl_cons]
    refine le_trans (dget_le_dincr d b.suggestion_id k b.duration
      (hpos b (List.mem_cons_self b rest))) ?_
    exact ih _ k (fun b' hb' => hpos b' (List.mem_cons_of_mem b hb'))

/-- Provenance of a scheduled block: it records a suggestion from the pool
(with its full duration), the suggestion has no unsupported location
preference, and it sits in some gap of the list — the first or last gap when
the suggestion is non-mandatory with the near-home preference. -/
def Prov (gap_list : List Gap) (tolerance : ℚ) (pool : List Suggestion)
    (b : ScheduledBlock) : Prop :=
  ∃ s ∈ pool, b.suggestion_id = s.suggestion_id ∧ b.duration = s.duration ∧
    (∀ p, s.location_preference = some p → p = "near_home") ∧
    ∃ gap : Gap, ∃ i : ℕ, gap_list.get? i = some gap ∧
      b.gap_id = gap.gap_id ∧
      (s.location_preference = some "near_home" →
        ¬(MANDATORY_NEED_THRESHOLD - tolerance ≤ s.need) →
        i = 0 ∨ i = gap_list.length - 1)

/-- An element of the pool stays in `remaining ∨ dropped_total`. -/
def Kept (s : Suggestion) (ost : OrchSt) : Prop :=
  s ∈ ost.remaining ∨ s ∈ ost.dropped_total

section OrchInv

variable (euclidean_distance : Coordinate → Coordinate → ℚ)
variable (gap_list : List Gap) (gap_labels : List (String × String × String))
variable (permutation_limit : ℕ) (tolerance : ℚ)

/-- Dropping a candidate keeps a kept element kept. -/
theorem dropCandidate_kept (x s : Suggestion) (ost : OrchSt)
    (h : Kept s ost) : Kept s (dropCandidate x ost) := by
  rcases h with h | h
  · unfold dropCandidate Kept
    dsimp only
    split
    · by_cases hmem : s ∈ ost.remaining.erase x
      · exact Or.inl hmem
      · right
        rw [eq_of_mem_not_mem_erase h hmem]
        simp
    · exact Or.inl h
  · right
    unfold dropCandidate
    simp [h]

/-- Orchestrator-state evolution order: blocks only get appended (with
provenance), allocated minutes never decrease, and suggestions with an
unsupported preference stay in `remaining` or `dropped_total`. -/
def OrchLe (pool : List Suggestion) (ost ost' : OrchSt) : Prop :=
  (∃ new, ost'.scheduled_blocks_total = ost.scheduled_blocks_total ++ new ∧
    ∀ b ∈ new, Prov gap_list tolerance pool b) ∧
  (∀ k, dget ost.allocated_minutes k 0 ≤ dget ost'.allocated_minutes k 0) ∧
  (∀ s : Suggestion, (∃ p, s.location_preference = some p ∧
      p ≠ "near_home") → Kept s ost → Kept s ost')

/-- `OrchLe` is reflexive. -/
theorem orchLe_refl (pool : List Suggestion) (ost : OrchSt) :
    OrchLe gap_list tolerance pool ost ost :=
  ⟨⟨[], by simp, fun b hb => absurd hb (List.not_mem_nil b)⟩,
    fun k => le_refl _, fun s _ h => h⟩

/-- `OrchLe` is transitive. -/
theorem orchLe_trans (pool : List Suggestion) (a b c : OrchSt)
    (h1 : OrchLe gap_list tolerance pool a b)
    (h2 : OrchLe gap_list tolerance pool b c) :
    OrchLe gap_list tolerance pool a c := by
  obtain ⟨⟨n1, hb1, hp1⟩, ha1, hk1⟩ := h1
  obtain ⟨⟨n2, hb2, hp2⟩, ha2, hk2⟩ := h2
  refine ⟨⟨n1 ++ n2, ?_, ?_⟩, ?_, ?_⟩
  · rw [hb2, hb1, List.append_assoc]
  · intro b hb
    rcases List.mem_append.mp hb with hb | hb
    · exact hp1 b hb
    · exact hp2 b hb
  · intro k
    exact le_trans (ha1 k) (ha2 k)
  · intro s hbad hk
    exact hk2 s hbad (hk1 s hbad hk)

/-- Dropping a candidate is an `OrchLe` step. -/
theorem orchLe_drop (pool : List Suggestion) (x : Suggestion) (ost : OrchSt) :
    OrchLe gap_list tolerance pool ost (dropCandidate x ost) :=
  ⟨⟨[], by simp [dropCandidate], fun b hb => absurd hb (List.not_mem_nil b)⟩,
    fun k => le_refl _, fun s _ h => dropCandidate_kept x s ost h⟩

/-- `workLoop` is an `OrchLe` step when the working batch is drawn from a pool
of positive-duration suggestions. -/
theorem workLoop_inv (pool : List Suggestion)
    (hpos : ∀ x ∈ pool, 0 < x.duration) (fuel : ℕ) :
    ∀ (working : List Suggestion) (ost : OrchSt),
    (∀ x ∈ working, x ∈ pool) →
    OrchLe gap_list tolerance pool ost
      (workLoop euclidean_distance gap_list gap_labels permutation_limit
        tolerance fuel working ost).2 := by
  induction fuel with
  | zero =>
    intro working ost hpool
    exact orchLe_refl gap_list tolerance pool ost
  | succ fuel ih =>
    intro working ost hpool
    unfold workLoop
    cases working with
    | nil => exact orchLe_refl gap_list tolerance pool ost
    | cons w ws =>
      dsimp only
      split
      · exact orchLe_refl gap_list tolerance pool ost
      next start hstart =>
        split
        next e herr =>
          split
          · exact orchLe_refl gap_list tolerance pool ost
          next x hlast =>
            have hpool' : ∀ y ∈ (w :: ws).dropLast, y ∈ pool := fun y hy =>
              hpool y (List.dropLast_sublist (w :: ws) |>.subset hy)
            exact orchLe_trans gap_list tolerance pool _ _ _
              (orchLe_drop gap_list tolerance pool x ost)
              (ih (w :: ws).dropLast (dropCandidate x ost) hpool')
        next order travel_cost permcount hok =>
          split
          next hassign =>
            split
            · exact orchLe_refl gap_list tolerance pool ost
            next x hlast =>
              have hpool' : ∀ y ∈ (w :: ws).dropLast, y ∈ pool := fun y hy =>
                hpool y (List.dropLast_sublist (w :: ws) |>.subset hy)
              exact orchLe_trans gap_list tolerance pool _ _ _
                (orchLe_drop gap_list tolerance pool x ost)
                (ih (w :: ws).dropLast (dropCandidate x ost) hpool')
          next schedule state2 movements hassign =>
            have hordermem : ∀ x ∈ order, x ∈ pool := fun x hx =>
              hpool x (enumerate_best_order_mem euclidean_distance (w :: ws)
                (some start) (gap_list.getLast?.map (fun g => g.end_location))
                permutation_limit order travel_cost permcount hok x hx)
            have hinv := assign_order_to_gaps_inversion euclidean_distance
              gap_list gap_labels tolerance order ost.state schedule state2
              movements hassign
            have hgoodorder : ∀ t ∈ order, ∀ p,
                t.location_preference = some p → p = "near_home" := by
              intro t ht p hp
              by_contra hne
              have := assign_order_to_gaps_unsupported euclidean_distance
                gap_list gap_labels tolerance order ost.state
                ⟨t, ht, p, hp, hne⟩
              rw [this] at hassign
              exact Option.noConfusion hassign
            refine ⟨⟨schedule, rfl, ?_⟩, ?_, ?_⟩
            · intro b hb
              obtain ⟨s, hs, gap, i, hid, hdur, hget, hgid, hnear⟩ :=
                hinv.1 b hb
              exact ⟨s, hordermem s hs, hid, hdur, hgoodorder s hs, gap, i,
                hget, hgid, hnear⟩
            · intro k
              dsimp only
              refine dget_le_foldl_dincr schedule ost.allocated_minutes k ?_
              intro b hb
              obtain ⟨s, hs, gap, i, -, hdur, -⟩ := hinv.1 b hb
              rw [hdur]
              exact le_of_lt (hpos s (hordermem s hs))
            · intro s hbad hk
              obtain ⟨p, hp, hpne⟩ := hbad
              have hsnot : s ∉ order := by
                intro hmem
                have := assign_order_to_gaps_unsupported euclidean_distance
                  gap_list gap_labels tolerance order ost.state
                  ⟨s, hmem, p, hp, hpne⟩
                rw [this] at hassign
                exact Option.noConfusion hassign
              rcases hk with hk | hk
              · exact Or.inl (mem_foldl_erase_of_not_mem order ost.remaining s
                  hk hsnot)
              · exact Or.inr hk

/-- `shrinkLoop` is an `OrchLe` step and its surviving batch is drawn from the
input batch. -/
theorem shrinkLoop_inv (pool : List Suggestion) (fuel : ℕ) :
    ∀ (batch : List Suggestion) (ost : OrchSt),
    OrchLe gap_list tolerance pool ost
      (shrinkLoop permutation_limit fuel batch ost).2 ∧
    (∀ x ∈ (shrinkLoop permutation_limit fuel batch ost).1, x ∈ batch) := by
  induction fuel with
  | zero =>
    intro batch ost
    exact ⟨orchLe_refl gap_list tolerance pool ost, fun x hx => hx⟩
  | succ fuel ih =>
    intro batch ost
    unfold shrinkLoop
    split
    · split
      · exact ⟨orchLe_refl gap_list tolerance pool ost, fun x hx => hx⟩
      next x hlast =>
        obtain ⟨hle, hsub⟩ := ih batch.dropLast (dropCandidate x ost)
        refine ⟨orchLe_trans gap_list tolerance pool _ _ _
          (orchLe_drop gap_list tolerance pool x ost) hle, ?_⟩
        intro y hy
        exact (List.dropLast_sublist batch).subset (hsub y hy)
    · exact ⟨orchLe_refl gap_list tolerance pool ost, fun x hx => hx⟩

/-- `schedule_group` is an `OrchLe` step when the group is drawn from a pool
of positive-duration suggestions. -/
theorem schedule_group_inv (pool : List Suggestion)
    (hpos : ∀ x ∈ pool, 0 < x.duration) (group : List Suggestion)
    (ost : OrchSt) (hgroup : ∀ x ∈ group, x ∈ pool) :
    OrchLe gap_list tolerance pool ost
      (schedule_group euclidean_distance gap_list gap_labels permutation_limit
        tolerance group ost).2 := by
  unfold schedule_group
  dsimp only
  split
  · exact orchLe_refl gap_list tolerance pool ost
  · have hbatch : ∀ x ∈ sortByScoreDesc (group.filter
        (fun s => ost.remaining.contains s)), x ∈ pool := by
      intro x hx
      have := (sortByScoreDesc_perm _).subset hx
      exact hgroup x (List.mem_of_mem_filter this)
    obtain ⟨hshr, hshrsub⟩ := shrinkLoop_inv gap_list permutation_limit
      tolerance pool (sortByScoreDesc (group.filter
        (fun s => ost.remaining.contains s))).length
      (sortByScoreDesc (group.filter (fun s => ost.remaining.contains s))) ost
    split
    · exact hshr
    · refine orchLe_trans gap_list tolerance pool _ _ _ hshr ?_
      exact workLoop_inv euclidean_distance gap_list gap_labels
        permutation_limit tolerance pool hpos _ _ _
        (fun x hx => hbatch x (hshrsub x hx))

end OrchInv


section OptInv

variable (euclidean_distance : Coordinate → Coordinate → ℚ)
variable (gap_list : List Gap) (gap_labels : List (String × String × String))
variable (permutation_limit : ℕ) (tolerance : ℚ)
variable (max_distance resolution_minutes : ℚ) (optional : List Suggestion)

/-- One optional-phase iteration is an `OrchLe` step. -/
theorem optIteration_inv (pool : List Suggestion)
    (hpos : ∀ x ∈ pool, 0 < x.duration)
    (hopt : ∀ x ∈ optional, x ∈ pool) (ost : OrchSt) :
    OrchLe gap_list tolerance pool ost
      (optIteration euclidean_distance gap_list gap_labels permutation_limit
        tolerance max_distance resolution_minutes optional ost).2 := by
  have hselpool : ∀ x ∈ sortByScoreDesc (greedy_select_candidates
      (optional.filter (fun s => ost.remaining.contains s)) gap_list
      max_distance (some (remaining_capacity gap_list ost.state tolerance))
      tolerance resolution_minutes), x ∈ pool := by
    intro x hx
    have hx1 := (sortByScoreDesc_perm _).subset hx
    have hx2 := greedy_select_candidates_subset _ _ _ _ _ _ x hx1
    exact hopt x (List.mem_of_mem_filter hx2)
  unfold optIteration
  split
  · exact orchLe_refl gap_list tolerance pool ost
  · dsimp only
    split
    · exact orchLe_refl gap_list tolerance pool ost
    · split
      · exact orchLe_refl gap_list tolerance pool ost
      · split
        · exact orchLe_refl gap_list tolerance pool ost
        · split
          · -- location batch empty: afterLoc = (false, ost)
            split
            next h => simp at h
            next h =>
              dsimp only
              split
              · split
                · exact orchLe_refl gap_list tolerance pool ost
                next h2 => simp at h2
              · have hr2 := schedule_group_inv euclidean_distance gap_list
                  gap_labels permutation_limit tolerance pool hpos
                  ((sortByScoreDesc (greedy_select_candidates
                    (optional.filter (fun s => ost.remaining.contains s))
                    gap_list max_distance
                    (some (remaining_capacity gap_list ost.state tolerance))
                    tolerance resolution_minutes)).filter
                    (fun s => s.location_preference.isNone &&
                      ((false, ost).2).remaining.contains s)) ((false, ost).2)
                  (fun x hx => hselpool x (List.mem_of_mem_filter hx))
                split
                · exact hr2
                · exact hr2
          · -- location batch nonempty: afterLoc = schedule_group … ost
            have hsg := schedule_group_inv euclidean_distance gap_list
              gap_labels permutation_limit tolerance pool hpos
              ((sortByScoreDesc (greedy_select_candidates
                (optional.filter (fun s => ost.remaining.contains s))
                gap_list max_distance
                (some (remaining_capacity gap_list ost.state tolerance))
                tolerance resolution_minutes)).filter
                (fun s => s.location_preference.isSome &&
                  ost.remaining.contains s)) ost
              (fun x hx => hselpool x (List.mem_of_mem_filter hx))
            split
            next h => exact hsg
            next h =>
              split
              · split
                · exact hsg
                next h2 =>
                  rw [Bool.not_eq_true] at h
                  exact absurd (by rw [h]; simp) h2
              · have hr2 := schedule_group_inv euclidean_distance gap_list
                  gap_labels permutation_limit tolerance pool hpos
                  ((sortByScoreDesc (greedy_select_candidates
                    (optional.filter (fun s => ost.remaining.contains s))
                    gap_list max_distance
                    (some (remaining_capacity gap_list ost.state tolerance))
                    tolerance resolution_minutes)).filter
                    (fun s => s.location_preference.isNone &&
                      ((schedule_group euclidean_distance gap_list gap_labels
                        permutation_limit tolerance
                        ((sortByScoreDesc (greedy_select_candidates
                          (optional.filter (fun s => ost.remaining.contains s))
                          gap_list max_distance
                          (some (remaining_capacity gap_list ost.state
                            tolerance)) tolerance resolution_minutes)).filter
                          (fun s => s.location_preference.isSome &&
                            ost.remaining.contains s)) ost).2).remaining.contains
                        s))
                  ((schedule_group euclidean_distance gap_list gap_labels
                    permutation_limit tolerance
                    ((sortByScoreDesc (greedy_select_candidates
                      (optional.filter (fun s => ost.remaining.contains s))
                      gap_list max_distance
                      (some (remaining_capacity gap_list ost.state tolerance))
                      tolerance resolution_minutes)).filter
                      (fun s => s.location_preference.isSome &&
                        ost.remaining.contains s)) ost).2)
                  (fun x hx => hselpool x (List.mem_of_mem_filter hx))
                split
                · exact orchLe_trans gap_list tolerance pool _ _ _ hsg hr2
                · exact orchLe_trans gap_list tolerance pool _ _ _ hsg hr2

/-- The optional-phase loop is an `OrchLe` step. -/
theorem optLoop_inv (pool : List Suggestion)
    (hpos : ∀ x ∈ pool, 0 < x.duration)
    (hopt : ∀ x ∈ optional, x ∈ pool) (fuel : ℕ) :
    ∀ ost : OrchSt,
    OrchLe gap_list tolerance pool ost
      (optLoop euclidean_distance gap_list gap_labels permutation_limit
        tolerance max_distance resolution_minutes optional fuel ost) := by
  induction fuel with
  | zero => intro ost; exact orchLe_refl gap_list tolerance pool ost
  | succ fuel ih =>
    intro ost
    unfold optLoop
    dsimp only
    have hstep := optIteration_inv euclidean_distance gap_list gap_labels
      permutation_limit tolerance max_distance resolution_minutes optional
      pool hpos hopt ost
    split
    · exact orchLe_trans gap_list tolerance pool _ _ _ hstep (ih _)
    · exact hstep

end OptInv

/-! ### Schedule-level provenance and dropped-suggestion facts -/

/-- Every block of a `schedule_suggestions` result has provenance in the input
list, and every input suggestion carrying an unsupported (non-`near_home`)
location preference ends up in `dropped_suggestions`. -/
theorem schedule_suggestions_prov_dropped
    (euclidean_distance : Coordinate → Coordinate → ℚ)
    (suggestions : List Suggestion) (gaps : List Gap)
    (max_distance : ℚ) (permutation_limit : ℕ)
    (tolerance resolution_minutes : ℚ)
    (hpos : ∀ x ∈ suggestions, 0 < x.duration) :
    (∀ b ∈ (schedule_suggestions euclidean_distance suggestions gaps
        max_distance permutation_limit tolerance
        resolution_minutes).scheduled_blocks,
      Prov gaps tolerance suggestions b) ∧
    (∀ s ∈ suggestions, (∃ p, s.location_preference = some p ∧
        p ≠ "near_home") →
      s ∈ (schedule_suggestions euclidean_distance suggestions gaps
        max_distance permutation_limit tolerance
        resolution_minutes).dropped_suggestions) := by
  unfold schedule_suggestions
  dsimp only
  split
  · exact ⟨fun b hb => absurd hb (List.not_mem_nil b), fun s hs _ => hs⟩
  next g0 gtail =>
    split
    · exact ⟨fun b hb => absurd hb (List.not_mem_nil b), fun s hs _ => hs⟩
    · split
      · exact ⟨fun b hb => absurd hb (List.not_mem_nil b), fun s hs _ => hs⟩
      next ost1 heq =>
        have hmand : ∀ x ∈ suggestions.filter
            (fun s => decide (MANDATORY_NEED_THRESHOLD - tolerance ≤ s.need)),
            x ∈ suggestions := fun x hx => List.mem_of_mem_filter hx
        have hopt : ∀ x ∈ suggestions.filter
            (fun s => !((suggestions.filter (fun s =>
              decide (MANDATORY_NEED_THRESHOLD - tolerance ≤ s.need))).contains
              s)), x ∈ suggestions := fun x hx => List.mem_of_mem_filter hx
        have h01 : OrchLe (g0 :: gtail) tolerance suggestions
            ⟨suggestions.filter
                (fun s => decide (MANDATORY_NEED_THRESHOLD - tolerance ≤
                  s.need)) ++
              suggestions.filter (fun s => !((suggestions.filter (fun s =>
                decide (MANDATORY_NEED_THRESHOLD - tolerance ≤
                  s.need))).contains s)),
              none, [], [], [], [], [], 0, 0⟩ ost1 := by
          split at heq
          · injection heq with heq
            rw [← heq]
            exact orchLe_refl (g0 :: gtail) tolerance suggestions _
          · split at heq
            · injection heq with heq
              rw [← heq]
              exact schedule_group_inv euclidean_distance (g0 :: gtail)
                (resolve_gap_labels (g0 :: gtail)) permutation_limit tolerance
                suggestions hpos _ _
                (fun x hx => hmand x (List.mem_of_mem_filter hx))
            · exact Option.noConfusion heq
        have h1F := optLoop_inv euclidean_distance (g0 :: gtail)
          (resolve_gap_labels (g0 :: gtail)) permutation_limit tolerance
          max_distance resolution_minutes _ suggestions hpos hopt
          (ost1.remaining.length + 1) ost1
        have hAll := orchLe_trans (g0 :: gtail) tolerance suggestions _ _ _
          h01 h1F
        obtain ⟨⟨new, hnew, hprov⟩, -, hkept⟩ := hAll
        constructor
        · intro b hb
          have hb1 : b ∈ sortBlocks (optLoop euclidean_distance (g0 :: gtail)
              (resolve_gap_labels (g0 :: gtail)) permutation_limit tolerance
              max_distance resolution_minutes
              (suggestions.filter (fun s => !((suggestions.filter (fun s =>
                decide (MANDATORY_NEED_THRESHOLD - tolerance ≤
                  s.need))).contains s)))
              (ost1.remaining.length + 1) ost1).scheduled_blocks_total := hb
          have hb2 := (sortBlocks_perm _).subset hb1
          rw [hnew] at hb2
          exact hprov b (by simpa using hb2)
        · intro s hs hbad
          have hkept0 : Kept s
              ⟨suggestions.filter
                  (fun s => decide (MANDATORY_NEED_THRESHOLD - tolerance ≤
                    s.need)) ++
                suggestions.filter (fun s => !((suggestions.filter (fun s =>
                  decide (MANDATORY_NEED_THRESHOLD - tolerance ≤
                    s.need))).contains s)),
                none, [], [], [], [], [], 0, 0⟩ := by
            left
            show s ∈ _ ++ _
            by_cases hm : s ∈ suggestions.filter
                (fun s => decide (MANDATORY_NEED_THRESHOLD - tolerance ≤
                  s.need))
            · exact List.mem_append.mpr (Or.inl hm)
            · refine List.mem_append.mpr (Or.inr (List.mem_filter.mpr
                ⟨hs, ?_⟩))
              have hm2 : s ∈ suggestions →
                  s.need + tolerance < MANDATORY_NEED_THRESHOLD := by
                simpa [List.elem_iff] using hm
              simp [List.elem_iff]
              exact Or.inr (hm2 hs)
          have hkeptF := hkept s hbad hkept0
          show s ∈ _ ++ List.filter _ _
          rcases hkeptF with hrem | hdrop
          · by_cases hd : s ∈ (optLoop euclidean_distance (g0 :: gtail)
                (resolve_gap_labels (g0 :: gtail)) permutation_limit tolerance
                max_distance resolution_minutes
                (suggestions.filter (fun s => !((suggestions.filter (fun s =>
                  decide (MANDATORY_NEED_THRESHOLD - tolerance ≤
                    s.need))).contains s)))
                (ost1.remaining.length + 1) ost1).dropped_total
            · exact List.mem_append.mpr (Or.inl hd)
            · refine List.mem_append.mpr (Or.inr (List.mem_filter.mpr
                ⟨hrem, ?_⟩))
              simpa [List.elem_iff] using hd
          · exact List.mem_append.mpr (Or.inl hdrop)

/-- C7: a suggestion whose normalized location preference is a non-empty
string different from `"near_home"` is never placed by `schedule_suggestions`
— no scheduled block carries its id (when ids identify suggestions uniquely
and durations are positive) — and it always appears in the result's
`dropped_suggestions`. -/
theorem schedule_suggestions_unsupported_pref
    (euclidean_distance : Coordinate → Coordinate → ℚ)
    (suggestions : List Suggestion) (gaps : List Gap)
    (max_distance : ℚ) (permutation_limit : ℕ)
    (tolerance resolution_minutes : ℚ) (s : Suggestion) (p : String)
    (hs : s ∈ suggestions) (hp : s.location_preference = some p)
    (hpe : p ≠ "") (hpn : p ≠ "near_home")
    (hpos : ∀ x ∈ suggestions, 0 < x.duration)
    (hid : ∀ x ∈ suggestions, x.suggestion_id = s.suggestion_id → x = s) :
    (∀ b ∈ (schedule_suggestions euclidean_distance suggestions gaps
        max_distance permutation_limit tolerance
        resolution_minutes).scheduled_blocks,
      b.suggestion_id ≠ s.suggestion_id) ∧
    s ∈ (schedule_suggestions euclidean_distance suggestions gaps
      max_distance permutation_limit tolerance
      resolution_minutes).dropped_suggestions := by
  obtain ⟨hprov, hdrop⟩ := schedule_suggestions_prov_dropped
    euclidean_distance suggestions gaps max_distance permutation_limit
    tolerance resolution_minutes hpos
  refine ⟨?_, hdrop s hs ⟨p, hp, hpn⟩⟩
  intro b hb hbid
  obtain ⟨s', hs', hbid', -, hpref', -⟩ := hprov b hb
  have heq : s' = s := hid s' hs' (hbid'.symm.trans hbid)
  exact hpn (hpref' p (by rw [heq]; exact hp))

/-- Closed instance of the C7 theorem: the `"studio"` preference of `badPref`
is unsupported, so it is never placed in `gap100` and always dropped. -/
theorem schedule_suggestions_unsupported_pref_witness :
    (∀ b ∈ (schedule_suggestions dist0 [badPref] [gap100] 3 8 (1/1000000)
        1).scheduled_blocks, b.suggestion_id ≠ badPref.suggestion_id) ∧
    badPref ∈ (schedule_suggestions dist0 [badPref] [gap100] 3 8 (1/1000000)
      1).dropped_suggestions :=
  schedule_suggestions_unsupported_pref dist0 [badPref] [gap100] 3 8
    (1/1000000) 1 badPref "studio" (List.mem_singleton.mpr rfl) rfl
    (by decide) (by decide)
    (fun x hx => by rw [List.mem_singleton.mp hx]; norm_num [badPref])
    (fun x hx _ => List.mem_singleton.mp hx)

set_option maxHeartbeats 3200000 in
/-- C6 counterexample: scheduling the two non-mandatory near-home suggestions
`enh1, enh2` into `[eg1, eg2]` puts `enh1`'s block in the last gap at offset 0
with `enh2`'s block after it, so the block is neither at the very start of the
first gap (it is not in the first gap at all) nor at the very end of the last
gap (it ends 6 minutes before the gap does). -/
theorem near_home_placement_counterexample :
    ∃ b ∈ (schedule_suggestions dist0 [enh1, enh2] [eg1, eg2] 3 8 (1/1000000)
        1).scheduled_blocks,
      b.suggestion_id = enh1.suggestion_id ∧
      enh1.location_preference = some "near_home" ∧
      ¬(MANDATORY_NEED_THRESHOLD - 1/1000000 ≤ enh1.need) ∧
      b.gap_id ≠ eg1.gap_id ∧
      b.gap_id = eg2.gap_id ∧ b.start_offset + b.duration < eg2.duration := by
  refine ⟨⟨"nh1", "g2", 0, 2, (0, 0)⟩, ?_, rfl, rfl,
    by norm_num [enh1, MANDATORY_NEED_THRESHOLD], by decide, rfl,
    by norm_num [eg2]⟩
  with_unfolding_all decide


/-- The element at index 0 of a list is its head. -/
theorem head_of_get_zero {α : Type} (l : List α) (a : α)
    (h : l.get? 0 = some a) : l.head? = some a := by
  cases l <;> simp_all

/-- The element at index `length - 1` of a list is its last element. -/
theorem getLast_of_get_pred {α : Type} (l : List α) (a : α)
    (h : l.get? (l.length - 1) = some a) : l.getLast? = some a := by
  rw [List.getLast?_eq_getElem?, ← List.get?_eq_getElem?]
  exact h

/-- C6 (amended): every scheduled block of a non-mandatory suggestion carrying
the near-home location preference lies in the first gap or in the last gap of
the gap list — the code constrains only which gap is used, not the position
inside it (ids are assumed to identify suggestions uniquely and durations to be
positive). -/
theorem near_home_block_first_or_last_gap
    (euclidean_distance : Coordinate → Coordinate → ℚ)
    (suggestions : List Suggestion) (gaps : List Gap)
    (max_distance : ℚ) (permutation_limit : ℕ)
    (tolerance resolution_minutes : ℚ) (s : Suggestion)
    (hs : s ∈ suggestions) (hp : s.location_preference = some "near_home")
    (hnm : ¬(MANDATORY_NEED_THRESHOLD - tolerance ≤ s.need))
    (hpos : ∀ x ∈ suggestions, 0 < x.duration)
    (hid : ∀ x ∈ suggestions, x.suggestion_id = s.suggestion_id → x = s)
    (b : ScheduledBlock)
    (hb : b ∈ (schedule_suggestions euclidean_distance suggestions gaps
      max_distance permutation_limit tolerance
      resolution_minutes).scheduled_blocks)
    (hbid : b.suggestion_id = s.suggestion_id) :
    (∃ g, gaps.head? = some g ∧ b.gap_id = g.gap_id) ∨
    (∃ g, gaps.getLast? = some g ∧ b.gap_id = g.gap_id) := by
  obtain ⟨hprov, -⟩ := schedule_suggestions_prov_dropped euclidean_distance
    suggestions gaps max_distance permutation_limit tolerance
    resolution_minutes hpos
  obtain ⟨s', hs', hbid', -, -, gap, i, hget, hbgap, hfl⟩ := hprov b hb
  have heq : s' = s := hid s' hs' (hbid'.symm.trans hbid)
  rcases hfl (by rw [heq]; exact hp) (by rw [heq]; exact hnm) with h0 | hlast
  · exact Or.inl ⟨gap, head_of_get_zero gaps gap (h0 ▸ hget), hbgap⟩
  · exact Or.inr ⟨gap, getLast_of_get_pred gaps gap (hlast ▸ hget), hbgap⟩

set_option maxHeartbeats 3200000 in
/-- Closed instance of the amended C6 theorem: `enh1`'s block in the two-gap
scenario lies in the first or last gap. -/
theorem near_home_block_first_or_last_gap_witness :
    (⟨"nh1", "g2", 0, 2, (0, 0)⟩ : ScheduledBlock) ∈
      (schedule_suggestions dist0 [enh1, enh2] [eg1, eg2] 3 8 (1/1000000)
        1).scheduled_blocks ∧
    ((∃ g, [eg1, eg2].head? = some g ∧
        (⟨"nh1", "g2", 0, 2, (0, 0)⟩ : ScheduledBlock).gap_id = g.gap_id) ∨
      (∃ g, [eg1, eg2].getLast? = some g ∧
        (⟨"nh1", "g2", 0, 2, (0, 0)⟩ : ScheduledBlock).gap_id = g.gap_id)) := by
  have hmem : (⟨"nh1", "g2", 0, 2, (0, 0)⟩ : ScheduledBlock) ∈
      (schedule_suggestions dist0 [enh1, enh2] [eg1, eg2] 3 8 (1/1000000)
        1).scheduled_blocks := by
    with_unfolding_all decide
  refine ⟨hmem, near_home_block_first_or_last_gap dist0 [enh1, enh2]
    [eg1, eg2] 3 8 (1/1000000) 1 enh1 ?_ rfl ?_ ?_ ?_ _ hmem rfl⟩
  · simp
  · norm_num [enh1, MANDATORY_NEED_THRESHOLD]
  · intro x hx
    rcases List.mem_cons.mp hx with h | h
    · rw [h]; norm_num [enh1]
    · rw [List.mem_singleton.mp h]; norm_num [enh2]
  · intro x hx hxid
    rcases List.mem_cons.mp hx with h | h
    · rw [h]
    · rw [List.mem_singleton.mp h] at hxid
      exact absurd hxid (by decide)

/-! ### C1: success path of the mandatory phase -/

/-- A block's own increment survives the allocated-minutes fold: after folding
all block durations (all non-negative) into a dict, the entry at a block's id
exceeds the starting entry by at least that block's duration. -/
theorem dget_foldl_dincr_of_mem :
    ∀ (blocks : List ScheduledBlock) (d : List (String × ℚ))
      (b : ScheduledBlock), b ∈ blocks → (∀ x ∈ blocks, 0 ≤ x.duration) →
    dget d b.suggestion_id 0 + b.duration ≤
      dget (blocks.foldl
        (fun d block => dincr d block.suggestion_id block.duration) d)
        b.suggestion_id 0 := by
  intro blocks
  induction blocks with
  | nil => intro d b hb _; exact absurd hb (List.not_mem_nil b)
  | cons x rest ih =>
    intro d b hb hpos
    simp only [List.foldl_cons]
    rcases List.mem_cons.mp hb with hb | hb
    · subst hb
      refine le_trans ?_ (dget_le_foldl_dincr rest _ _
        (fun y hy => hpos y (List.mem_cons_of_mem b hy)))
      rw [dget_dincr]
      simp
    · refine le_trans ?_ (ih (dincr d x.suggestion_id x.duration) b hb
        (fun y hy => hpos y (List.mem_cons_of_mem x hy)))
      have hx := dget_le_dincr d x.suggestion_id b.suggestion_id x.duration
        (hpos x (List.mem_cons_self x rest))
      linarith

/-- On a non-empty batch within the permutation limit, `enumerate_best_order`
succeeds and returns a permutation of the batch. -/
theorem enumerate_best_order_ok_perm
    (euclidean_distance : Coordinate → Coordinate → ℚ)
    (suggestions : List Suggestion)
    (start_location end_location : Option Coordinate) (permutation_limit : ℕ)
    (hne : suggestions ≠ []) (hle : suggestions.length ≤ permutation_limit) :
    ∃ order c n, enumerate_best_order euclidean_distance suggestions
      start_location end_location permutation_limit = .ok (order, c, n) ∧
      order.Perm suggestions := by
  unfold enumerate_best_order
  have h0 : suggestions.length ≠ 0 := by
    intro h
    exact hne (List.length_eq_zero.mp h)
  rw [if_neg h0, if_neg (not_lt.mpr hle)]
  have hinv := foldl_bestStep_spec euclidean_distance start_location
    end_location (pyPermutations suggestions) [] (none, 0)
    ⟨rfl, Or.inl ⟨rfl, rfl⟩⟩
  rcases hinv.2 with ⟨-, hnil⟩ | ⟨bo, bc, hsome, -, -, l1, l2, hsplit, -⟩
  · exact absurd (by simpa using hnil) (pyPermutations_ne_nil suggestions)
  · simp only [hsome]
    refine ⟨bo, bc, _, rfl, ?_⟩
    rw [List.nil_append] at hsplit
    have hmem : bo ∈ pyPermutations suggestions := by
      rw [hsplit]
      exact List.mem_append.mpr (Or.inr (List.mem_cons_self bo l2))
    exact (mem_pyPermutations suggestions bo).mp hmem

/-- `shrinkLoop` does nothing when the batch is within the permutation limit. -/
theorem shrinkLoop_noop (permutation_limit : ℕ) (fuel : ℕ)
    (batch : List Suggestion) (ost : OrchSt)
    (h : ¬permutation_limit < batch.length) :
    shrinkLoop permutation_limit fuel batch ost = (batch, ost) := by
  cases fuel with
  | zero => rfl
  | succ n =>
    unfold shrinkLoop
    rw [if_neg h]

/-- Folding the guarded erase of an order over a list it permutes empties it. -/
theorem foldl_erase_perm_nil :
    ∀ (order rem : List Suggestion), order.Perm rem →
    order.foldl (fun r s => if r.contains s then r.erase s else r) rem = [] := by
  intro order
  induction order with
  | nil =>
    intro rem h
    have := h.length_eq
    simpa using (List.length_eq_zero.mp this.symm)
  | cons s rest ih =>
    intro rem h
    have hs : s ∈ rem := h.subset (List.mem_cons_self s rest)
    have hc : rem.contains s = true := by
      simp [List.elem_iff]
      exact hs
    simp only [List.foldl_cons, hc, if_true]
    exact ih (rem.erase s) ((List.cons_perm_iff_perm_erase.mp h).2)

/-- Folding the guarded erase of an order over `base ++ extra`, where the order
permutes `base`, leaves exactly `extra`. -/
theorem foldl_erase_perm_append :
    ∀ (order base extra : List Suggestion), order.Perm base →
    order.foldl (fun r s => if r.contains s then r.erase s else r)
      (base ++ extra) = extra := by
  intro order
  induction order with
  | nil =>
    intro base extra h
    have hb : base = [] := by
      have := h.length_eq
      simpa using (List.length_eq_zero.mp this.symm)
    rw [hb, List.nil_append, List.foldl_nil]
  | cons s rest ih =>
    intro base extra h
    have hsb : s ∈ base := h.subset (List.mem_cons_self s rest)
    have hc : (base ++ extra).contains s = true := by
      simp [List.elem_iff]
      exact Or.inl hsb
    simp only [List.foldl_cons, hc, if_true]
    rw [List.erase_append_left _ hsb]
    exact ih (base.erase s) extra ((List.cons_perm_iff_perm_erase.mp h).2)

/-- The optional-phase loop is the identity once `remaining` is empty. -/
theorem optLoop_empty
    (euclidean_distance : Coordinate → Coordinate → ℚ)
    (gap_list : List Gap) (gap_labels : List (String × String × String))
    (permutation_limit : ℕ) (tolerance max_distance resolution_minutes : ℚ)
    (optional : List Suggestion) (fuel : ℕ) (ost : OrchSt)
    (h : ost.remaining = []) :
    optLoop euclidean_distance gap_list gap_labels permutation_limit tolerance
      max_distance resolution_minutes optional fuel ost = ost := by
  cases fuel with
  | zero => rfl
  | succ n =>
    unfold optLoop optIteration
    rw [h]
    simp

/-- In a single-gap world with zero travel and no location preference, one
`allocateLoop` step places the suggestion at the current usage offset whenever
the remaining time exceeds the tolerance and the suggestion fits within
tolerance. -/
theorem allocateLoop_place
    (euclidean_distance : Coordinate → Coordinate → ℚ) (g : Gap)
    (gap_labels : List (String × String × String)) (tolerance : ℚ)
    (s : Suggestion) (is_last : Bool) (fuel : ℕ) (st : AssignSt)
    (hidx : st.gap_index = 0)
    (hcur : st.current_cursor = none ∨
      st.current_cursor = some g.start_location)
    (hpr : s.location_preference = none)
    (hsl : s.location = g.start_location)
    (hdist : euclidean_distance g.start_location g.start_location = 0)
    (htol : 0 ≤ tolerance)
    (hfit : dget st.gap_usage g.gap_id 0 + s.duration ≤
      g.duration + tolerance)
    (hrem : tolerance < g.duration - dget st.gap_usage g.gap_id 0) :
    allocateLoop euclidean_distance [g] gap_labels tolerance s is_last
      (fuel + 1) st =
      some { st with
        gap_usage := dincr st.gap_usage g.gap_id s.duration
        blocks := st.blocks ++ [⟨s.suggestion_id, g.gap_id,
          dget st.gap_usage g.gap_id 0, s.duration, s.location⟩]
        current_cursor := some s.location
        current_label := some s.suggestion_id
        gap_has_blocks := true } := by
  have hcursor : st.current_cursor.getD g.start_location = g.start_location := by
    rcases hcur with h | h <;> simp [h]
  have hmin0 : (travel_minutes_between euclidean_distance
      (st.current_cursor.getD g.start_location) s.location).2 = 0 := by
    rw [hcursor, hsl]
    unfold travel_minutes_between
    rw [hdist]
    norm_num
  unfold allocateLoop
  rw [hidx]
  simp only [List.get?]
  rw [hmin0, zero_add]
  have hrej : placementRejected euclidean_distance [g] gap_labels tolerance g 0
      st.current_cursor (st.current_cursor.getD g.start_location)
      (g.duration - dget st.gap_usage g.gap_id 0) s is_last = false := by
    unfold placementRejected
    rw [hpr]
  rw [if_neg (not_le.mpr hrem), hrej]
  simp only [Bool.false_eq_true, if_false]
  rw [if_neg (not_lt.mpr (by linarith :
    s.duration ≤ g.duration - dget st.gap_usage g.gap_id 0 + tolerance))]
  rw [if_neg (not_lt.mpr htol)]
  rw [if_neg (not_lt.mpr (by linarith :
    s.duration ≤ g.duration - dget st.gap_usage g.gap_id 0 + tolerance))]
  rw [hidx]

/-- In a single-gap world with zero travel, `assignGo` places every suggestion
of the order: the final state records the summed usage and one block per
suggestion (with its id and full duration), old blocks are kept, and every
block traces back to an old block or an order element. -/
theorem assignGo_fits
    (euclidean_distance : Coordinate → Coordinate → ℚ) (g : Gap)
    (gap_labels : List (String × String × String)) (tolerance : ℚ)
    (htol : 0 ≤ tolerance)
    (hdist : euclidean_distance g.start_location g.start_location = 0) :
    ∀ (order : List Suggestion) (st : AssignSt),
    (∀ s ∈ order, s.location_preference = none) →
    (∀ s ∈ order, s.location = g.start_location) →
    (∀ s ∈ order, tolerance < s.duration) →
    st.gap_index = 0 →
    (st.current_cursor = none ∨ st.current_cursor = some g.start_location) →
    dget st.gap_usage g.gap_id 0 +
      (order.map (fun s => s.duration)).sum ≤ g.duration →
    ∃ stF, assignGo euclidean_distance [g] gap_labels tolerance order st =
        some stF ∧
      stF.gap_index = 0 ∧
      (stF.current_cursor = none ∨
        stF.current_cursor = some g.start_location) ∧
      dget stF.gap_usage g.gap_id 0 =
        dget st.gap_usage g.gap_id 0 +
          (order.map (fun s => s.duration)).sum ∧
      (∀ b ∈ st.blocks, b ∈ stF.blocks) ∧
      (∀ s ∈ order, ∃ b ∈ stF.blocks,
        b.suggestion_id = s.suggestion_id ∧ b.duration = s.duration) ∧
      (∀ b ∈ stF.blocks, b ∈ st.blocks ∨
        ∃ s ∈ order, b.suggestion_id = s.suggestion_id ∧
          b.duration = s.duration) := by
  intro order
  induction order with
  | nil =>
    intro st _ _ _ hidx hcur hsum
    refine ⟨st, rfl, hidx, hcur, by simp, fun b hb => hb, ?_, ?_⟩
    · intro s hs
      exact absurd hs (List.not_mem_nil s)
    · intro b hb
      exact Or.inl hb
  | cons s rest ih =>
    intro st hpr hloc hdur hidx hcur hsum
    have hds : tolerance < s.duration := hdur s (List.mem_cons_self s rest)
    have hsumrest : 0 ≤ (rest.map (fun s => s.duration)).sum := by
      refine List.sum_nonneg ?_
      intro x hx
      obtain ⟨t, ht, rfl⟩ := List.mem_map.mp hx
      have := hdur t (List.mem_cons_of_mem s ht)
      linarith
    have hcons : (List.map (fun s => s.duration) (s :: rest)).sum =
        s.duration + (rest.map (fun s => s.duration)).sum := by simp
    have hsum' : dget st.gap_usage g.gap_id 0 + s.duration +
        (rest.map (fun s => s.duration)).sum ≤ g.duration := by
      rw [hcons] at hsum
      linarith
    have hfit1 : dget st.gap_usage g.gap_id 0 + s.duration ≤
        g.duration + tolerance := by linarith
    have hrem1 : tolerance < g.duration - dget st.gap_usage g.gap_id 0 := by
      linarith
    have hplace : ∀ il : Bool,
        allocateLoop euclidean_distance [g] gap_labels tolerance s il
          (1 + 1) st = some { st with
            gap_usage := dincr st.gap_usage g.gap_id s.duration
            blocks := st.blocks ++ [⟨s.suggestion_id, g.gap_id,
              dget st.gap_usage g.gap_id 0, s.duration, s.location⟩]
            current_cursor := some s.location
            current_label := some s.suggestion_id
            gap_has_blocks := true } :=
      fun il => allocateLoop_place euclidean_distance g gap_labels tolerance
        s il 1 st hidx hcur (hpr s (List.mem_cons_self s rest))
        (hloc s (List.mem_cons_self s rest)) hdist htol hfit1 hrem1
    have hdgetNew : dget (dincr st.gap_usage g.gap_id s.duration) g.gap_id 0 =
        dget st.gap_usage g.gap_id 0 + s.duration := by
      rw [dget_dincr]
      simp
    cases rest with
    | nil =>
      refine ⟨_, hplace true, hidx, ?_, ?_, ?_, ?_, ?_⟩
      · right
        rw [hloc s (List.mem_cons_self s [])]
      · rw [hdgetNew]
        simp
      · intro b hb
        exact List.mem_append_left _ hb
      · intro t ht
        have hts : t = s := by simpa using ht
        subst hts
        exact ⟨_, List.mem_append_right _ (List.mem_singleton_self _),
          rfl, rfl⟩
      · intro b hb
        rcases List.mem_append.mp hb with hb | hb
        · exact Or.inl hb
        · have hbb := List.mem_singleton.mp hb
          subst hbb
          exact Or.inr ⟨s, List.mem_cons_self s [], rfl, rfl⟩
    | cons s2 rest2 =>
      have hstep : assignGo euclidean_distance [g] gap_labels tolerance
          (s :: s2 :: rest2) st =
          match allocate_suggestion euclidean_distance [g] gap_labels
              tolerance s false st with
          | none => none
          | some st' => assignGo euclidean_distance [g] gap_labels tolerance
              (s2 :: rest2) st' := rfl
      have halloc : allocate_suggestion euclidean_distance [g] gap_labels
          tolerance s false st = some { st with
            gap_usage := dincr st.gap_usage g.gap_id s.duration
            blocks := st.blocks ++ [⟨s.suggestion_id, g.gap_id,
              dget st.gap_usage g.gap_id 0, s.duration, s.location⟩]
            current_cursor := some s.location
            current_label := some s.suggestion_id
            gap_has_blocks := true } := hplace false
      obtain ⟨stF, hgoF, hidxF, hcurF, hdgetF, hpreF, hcovF, hprovF⟩ :=
        ih { st with
            gap_usage := dincr st.gap_usage g.gap_id s.duration
            blocks := st.blocks ++ [⟨s.suggestion_id, g.gap_id,
              dget st.gap_usage g.gap_id 0, s.duration, s.location⟩]
            current_cursor := some s.location
            current_label := some s.suggestion_id
            gap_has_blocks := true }
          (fun t ht => hpr t (List.mem_cons_of_mem s ht))
          (fun t ht => hloc t (List.mem_cons_of_mem s ht))
          (fun t ht => hdur t (List.mem_cons_of_mem s ht))
          hidx
          (Or.inr (by rw [hloc s (List.mem_cons_self s _)]))
          (by rw [hdgetNew]; linarith)
      refine ⟨stF, ?_, hidxF, hcurF, ?_, ?_, ?_, ?_⟩
      · rw [hstep, halloc]
        exact hgoF
      · rw [hdgetF, hdgetNew, hcons]
        ring
      · intro b hb
        exact hpreF b (List.mem_append_left _ hb)
      · intro t ht
        rcases List.mem_cons.mp ht with hts | ht2
        · subst hts
          exact ⟨_, hpreF _ (List.mem_append_right _
            (List.mem_singleton_self _)), rfl, rfl⟩
        · obtain ⟨b, hbF, hbid, hbdur⟩ := hcovF t ht2
          exact ⟨b, hbF, hbid, hbdur⟩
      · intro b hb
        rcases hprovF b hb with hb2 | ⟨t, ht2, hbid, hbdur⟩
        · rcases List.mem_append.mp hb2 with hb3 | hb3
          · exact Or.inl hb3
          · have hbb := List.mem_singleton.mp hb3
            subst hbb
            exact Or.inr ⟨s, List.mem_cons_self s _, rfl, rfl⟩
        · exact Or.inr ⟨t, List.mem_cons_of_mem s ht2, hbid, hbdur⟩

/-- In a single-gap world with zero travel, `assign_order_to_gaps` succeeds on
any order fitting the gap: the returned schedule has one block per order
element (with its id and full duration) and nothing else. -/
theorem assign_order_to_gaps_fits
    (euclidean_distance : Coordinate → Coordinate → ℚ) (g : Gap)
    (gap_labels : List (String × String × String)) (tolerance : ℚ)
    (htol : 0 ≤ tolerance)
    (hdist : euclidean_distance g.start_location g.start_location = 0)
    (hend : g.end_location = g.start_location)
    (order : List Suggestion)
    (hpr : ∀ s ∈ order, s.location_preference = none)
    (hloc : ∀ s ∈ order, s.location = g.start_location)
    (hdur : ∀ s ∈ order, tolerance < s.duration)
    (hsum : (order.map (fun s => s.duration)).sum ≤ g.duration) :
    ∃ schedule state movements,
      assign_order_to_gaps euclidean_distance [g] gap_labels tolerance order
        none = some (schedule, state, movements) ∧
      (∀ s ∈ order, ∃ b ∈ schedule,
        b.suggestion_id = s.suggestion_id ∧ b.duration = s.duration) ∧
      (∀ b ∈ schedule, ∃ s ∈ order,
        b.suggestion_id = s.suggestion_id ∧ b.duration = s.duration) := by
  cases order with
  | nil =>
    refine ⟨[], _, [], rfl, ?_, ?_⟩
    · intro s hs
      exact absurd hs (List.not_mem_nil s)
    · intro b hb
      exact absurd hb (List.not_mem_nil b)
  | cons s0 rest =>
    have hdget0 : dget (AssignSt.gap_usage
        ⟨[g].map (fun gap => (gap.gap_id, 0)), 0, none, none, false, [], []⟩)
        g.gap_id 0 = 0 := by
      simp [dget]
    obtain ⟨stF, hgo, hidxF, hcurF, hdgetF, -, hcov, hprov⟩ :=
      assignGo_fits euclidean_distance g gap_labels tolerance htol hdist
        (s0 :: rest)
        ⟨[g].map (fun gap => (gap.gap_id, 0)), 0, none, none, false, [], []⟩
        hpr hloc hdur rfl (Or.inl rfl) (by rw [hdget0]; linarith)
    have hcursorF : stF.current_cursor.getD g.start_location =
        g.start_location := by
      rcases hcurF with h | h <;> simp [h]
    have hsumF : dget stF.gap_usage g.gap_id 0 =
        (List.map (fun s => s.duration) (s0 :: rest)).sum := by
      rw [hdgetF, hdget0, zero_add]
    have hdm2 : (travel_minutes_between euclidean_distance
        (stF.current_cursor.getD g.start_location) g.end_location).2 = 0 := by
      unfold travel_minutes_between
      rw [hcursorF, hend, hdist]
      exact zero_mul _
    have hfinish : ∃ state movements, assignFinish euclidean_distance [g]
        gap_labels tolerance stF = some (stF.blocks, state, movements) := by
      unfold assignFinish
      rw [hidxF]
      simp only [List.get?]
      have hens : ensure_gap_exit_ok euclidean_distance gap_labels tolerance
          stF.gap_usage g (stF.current_cursor.getD g.start_location)
          stF.current_label = some
          ((travel_minutes_between euclidean_distance
            (stF.current_cursor.getD g.start_location) g.end_location).1, 0,
            (match stF.current_label with
              | some l => l
              | none => gap_start_label gap_labels g),
            gap_end_label gap_labels g) := by
        unfold ensure_gap_exit_ok
        dsimp only
        rw [hdm2]
        rw [if_neg (not_lt.mpr (by rw [hsumF]; linarith))]
      rw [hens]
      dsimp only
      rw [if_neg (not_lt.mpr htol)]
      exact ⟨_, _, rfl⟩
    obtain ⟨state, movements, hfin⟩ := hfinish
    have hmain : assign_order_to_gaps euclidean_distance [g] gap_labels
        tolerance (s0 :: rest) none =
        assignFinish euclidean_distance [g] gap_labels tolerance stF := by
      show (match assignGo euclidean_distance [g] gap_labels tolerance
          (s0 :: rest)
          ⟨[g].map (fun gap => (gap.gap_id, 0)), 0, none, none, false, [], []⟩
          with
        | none => none
        | some st => assignFinish euclidean_distance [g] gap_labels tolerance
            st) = _
      rw [hgo]
    refine ⟨stF.blocks, state, movements, by rw [hmain, hfin], hcov, ?_⟩
    intro b hb
    rcases hprov b hb with hb0 | h
    · exact absurd hb0 (List.not_mem_nil b)
    · exact h

/-- In a single-gap world with zero travel, the first `workLoop` iteration on a
feasible batch succeeds: all of `working` is placed (one block per element),
the copy of the batch at the front of `remaining` is consumed (leaving the
rest), nothing is dropped, and every element's allocated minutes reach its
full duration. -/
theorem workLoop_fits
    (euclidean_distance : Coordinate → Coordinate → ℚ) (g : Gap)
    (gap_labels : List (String × String × String))
    (permutation_limit : ℕ) (tolerance : ℚ)
    (htol : 0 ≤ tolerance)
    (hdist : euclidean_distance g.start_location g.start_location = 0)
    (hend : g.end_location = g.start_location)
    (m : ℕ) (working base extra : List Suggestion) (ost : OrchSt)
    (hne : working ≠ [])
    (hpr : ∀ s ∈ working, s.location_preference = none)
    (hloc : ∀ s ∈ working, s.location = g.start_location)
    (hdur : ∀ s ∈ working, tolerance < s.duration)
    (hsum : (working.map (fun s => s.duration)).sum ≤ g.duration)
    (hlim : working.length ≤ permutation_limit)
    (hwb : working.Perm base)
    (hosteq : ost.remaining = base ++ extra)
    (hstate : ost.state = none)
    (halloc : ost.allocated_minutes = []) :
    ∃ ost1, workLoop euclidean_distance [g] gap_labels permutation_limit
        tolerance (m + 1) working ost = (true, ost1) ∧
      ost1.remaining = extra ∧
      ost1.dropped_total = ost.dropped_total ∧
      (∀ s ∈ working, ∃ b ∈ ost1.scheduled_blocks_total,
        b.suggestion_id = s.suggestion_id ∧ b.duration = s.duration) ∧
      (∀ s ∈ working, s.duration ≤
        dget ost1.allocated_minutes s.suggestion_id 0) := by
  obtain ⟨order, c, n, henum, hperm⟩ := enumerate_best_order_ok_perm
    euclidean_distance working (some g.start_location)
    ([g].getLast?.map (fun gp => gp.end_location)) permutation_limit hne hlim
  have hosub : ∀ s ∈ order, s ∈ working := fun s hs => hperm.subset hs
  have hosum : (order.map (fun s => s.duration)).sum ≤ g.duration := by
    rw [List.Perm.sum_eq (hperm.map (fun s => s.duration))]
    exact hsum
  obtain ⟨schedule, state', movements, hassign, hcov, hprov⟩ :=
    assign_order_to_gaps_fits euclidean_distance g gap_labels tolerance htol
      hdist hend order (fun s hs => hpr s (hosub s hs))
      (fun s hs => hloc s (hosub s hs)) (fun s hs => hdur s (hosub s hs))
      hosum
  obtain ⟨w0, wrest, hw⟩ : ∃ a l, working = a :: l := by
    cases working with
    | nil => exact absurd rfl hne
    | cons a l => exact ⟨a, l, rfl⟩
  subst hw
  have hrun : workLoop euclidean_distance [g] gap_labels permutation_limit
      tolerance (m + 1) (w0 :: wrest) ost = (true,
      { remaining := order.foldl
          (fun r s => if r.contains s then r.erase s else r) ost.remaining
        state := some state'
        ordered_total := ost.ordered_total ++ order
        scheduled_blocks_total := ost.scheduled_blocks_total ++ schedule
        allocated_minutes := schedule.foldl
          (fun d block => dincr d block.suggestion_id block.duration)
          ost.allocated_minutes
        movement_log_total := ost.movement_log_total ++ movements
        dropped_total := ost.dropped_total
        total_travel_cost := ost.total_travel_cost + c
        permutations_total := ost.permutations_total + n }) := by
    unfold workLoop
    dsimp only
    rw [hstate]
    rw [show starting_location_for_state [g] none = some g.start_location
      from rfl]
    dsimp only
    rw [henum]
    dsimp only
    rw [hassign]
  refine ⟨_, hrun, ?_, rfl, ?_, ?_⟩
  · show order.foldl (fun r s => if r.contains s then r.erase s else r)
      ost.remaining = extra
    rw [hosteq]
    exact foldl_erase_perm_append order base extra (hperm.trans hwb)
  · intro s hs
    obtain ⟨b, hb, hbid, hbdur⟩ := hcov s (hperm.symm.subset hs)
    exact ⟨b, List.mem_append_right _ hb, hbid, hbdur⟩
  · intro s hs
    obtain ⟨b, hb, hbid, hbdur⟩ := hcov s (hperm.symm.subset hs)
    have hnn : ∀ x ∈ schedule, 0 ≤ x.duration := by
      intro x hx
      obtain ⟨t, ht, -, hxd⟩ := hprov x hx
      have := hdur t (hosub t ht)
      rw [hxd]
      linarith
    have hstep := dget_foldl_dincr_of_mem schedule ost.allocated_minutes b hb
      hnn
    rw [halloc] at hstep
    have hzero : dget ([] : List (String × ℚ)) b.suggestion_id 0 = 0 := rfl
    rw [hzero, zero_add, hbdur, hbid] at hstep
    show s.duration ≤ dget (schedule.foldl
      (fun d block => dincr d block.suggestion_id block.duration)
      ost.allocated_minutes) s.suggestion_id 0
    rw [halloc]
    exact hstep

/-- In a single-gap world with zero travel, `schedule_group` on a feasible
batch sitting at the front of `remaining` succeeds in one `workLoop`
iteration: everything in the batch is placed with full duration (leaving the
rest of `remaining`), nothing is dropped, and every batch member's allocated
minutes reach its duration. -/
theorem schedule_group_fits
    (euclidean_distance : Coordinate → Coordinate → ℚ) (g : Gap)
    (gap_labels : List (String × String × String))
    (permutation_limit : ℕ) (tolerance : ℚ)
    (htol : 0 ≤ tolerance)
    (hdist : euclidean_distance g.start_location g.start_location = 0)
    (hend : g.end_location = g.start_location)
    (group extra : List Suggestion) (ost : OrchSt)
    (hne : group ≠ [])
    (hpr : ∀ s ∈ group, s.location_preference = none)
    (hloc : ∀ s ∈ group, s.location = g.start_location)
    (hdur : ∀ s ∈ group, tolerance < s.duration)
    (hsum : (group.map (fun s => s.duration)).sum ≤ g.duration)
    (hlim : group.length ≤ permutation_limit)
    (hrem : ost.remaining = group ++ extra)
    (hstate : ost.state = none)
    (halloc : ost.allocated_minutes = []) :
    ∃ ost1, schedule_group euclidean_distance [g] gap_labels
        permutation_limit tolerance group ost = (true, ost1) ∧
      ost1.remaining = extra ∧
      ost1.dropped_total = ost.dropped_total ∧
      (∀ s ∈ group, ∃ b ∈ ost1.scheduled_blocks_total,
        b.suggestion_id = s.suggestion_id ∧ b.duration = s.duration) ∧
      (∀ s ∈ group, s.duration ≤
        dget ost1.allocated_minutes s.suggestion_id 0) := by
  have hsperm := sortByScoreDesc_perm group
  have hsortlen : (sortByScoreDesc group).length = group.length :=
    hsperm.length_eq
  have hsne : sortByScoreDesc group ≠ [] := by
    intro hnil
    rw [hnil] at hsortlen
    cases group with
    | nil => exact hne rfl
    | cons a l => simp at hsortlen
  have hfilter : group.filter (fun s => ost.remaining.contains s) = group := by
    rw [hrem]
    refine List.filter_eq_self.mpr ?_
    intro a ha
    simp [List.elem_iff]
    exact Or.inl ha
  have hie : group.isEmpty = false := by
    cases group with
    | nil => exact absurd rfl hne
    | cons a l => rfl
  obtain ⟨ost1, hrun, hrem1, hdrop1, hcov1, halloc1⟩ :=
    workLoop_fits euclidean_distance g gap_labels permutation_limit tolerance
      htol hdist hend ((sortByScoreDesc group).length - 1)
      (sortByScoreDesc group) group extra ost hsne
      (fun s hs => hpr s (hsperm.subset hs))
      (fun s hs => hloc s (hsperm.subset hs))
      (fun s hs => hdur s (hsperm.subset hs))
      (by rw [List.Perm.sum_eq (hsperm.map (fun s => s.duration))]; exact hsum)
      (by rw [hsortlen]; exact hlim)
      hsperm hrem
      hstate halloc
  have hm : (sortByScoreDesc group).length - 1 + 1 =
      (sortByScoreDesc group).length := by
    cases hsg : sortByScoreDesc group with
    | nil => exact absurd hsg hsne
    | cons a l => simp
  rw [hm] at hrun
  refine ⟨ost1, ?_, hrem1, hdrop1, ?_, ?_⟩
  · unfold schedule_group
    dsimp only
    rw [hfilter]
    rw [if_neg (by simp [hie])]
    rw [shrinkLoop_noop permutation_limit (sortByScoreDesc group).length
      (sortByScoreDesc group) ost (by rw [hsortlen]; exact not_lt.mpr hlim)]
    dsimp only
    rw [if_neg (by simpa using hsne)]
    exact hrun
  · intro s hs
    exact hcov1 s (hsperm.symm.subset hs)
  · intro s hs
    exact halloc1 s (hsperm.symm.subset hs)

/-- C1 (amended): with a single gap, whenever every mandatory suggestion (need
within tolerance of the threshold) has no location preference, sits at the
gap's shared start/end location at zero distance, and has duration above the
(non-negative) tolerance, while the mandatory durations in total fit the gap,
the mandatory count is within the permutation limit, and all durations are
positive, `schedule_suggestions` — on any mix of mandatory and optional
suggestions — gives every mandatory suggestion a scheduled block carrying its
id and full duration and an `allocated_minutes` entry of at least its duration
minus the tolerance. -/
theorem schedule_suggestions_mandatory_single_gap
    (euclidean_distance : Coordinate → Coordinate → ℚ)
    (suggestions : List Suggestion) (g : Gap)
    (max_distance : ℚ) (permutation_limit : ℕ)
    (tolerance resolution_minutes : ℚ)
    (hpr : ∀ s ∈ suggestions, MANDATORY_NEED_THRESHOLD - tolerance ≤ s.need →
      s.location_preference = none)
    (hloc : ∀ s ∈ suggestions, MANDATORY_NEED_THRESHOLD - tolerance ≤ s.need →
      s.location = g.start_location)
    (hdur : ∀ s ∈ suggestions, MANDATORY_NEED_THRESHOLD - tolerance ≤ s.need →
      tolerance < s.duration)
    (hend : g.end_location = g.start_location)
    (hdist : euclidean_distance g.start_location g.start_location = 0)
    (htol : 0 ≤ tolerance)
    (hpos : ∀ s ∈ suggestions, 0 < s.duration)
    (htot : ((suggestions.filter (fun s =>
      decide (MANDATORY_NEED_THRESHOLD - tolerance ≤ s.need))).map
        (fun s => s.duration)).sum ≤ g.duration)
    (hlim : (suggestions.filter (fun s =>
      decide (MANDATORY_NEED_THRESHOLD - tolerance ≤ s.need))).length ≤
        permutation_limit) :
    ∀ s ∈ suggestions, MANDATORY_NEED_THRESHOLD - tolerance ≤ s.need →
      (∃ b ∈ (schedule_suggestions euclidean_distance suggestions [g]
          max_distance permutation_limit tolerance
          resolution_minutes).scheduled_blocks,
        b.suggestion_id = s.suggestion_id ∧ b.duration = s.duration) ∧
      s.duration - tolerance ≤ dget (schedule_suggestions euclidean_distance
        suggestions [g] max_distance permutation_limit tolerance
        resolution_minutes).allocated_minutes s.suggestion_id 0 := by
  intro s hs hneeds
  have hsM : s ∈ suggestions.filter (fun s =>
      decide (MANDATORY_NEED_THRESHOLD - tolerance ≤ s.need)) :=
    List.mem_filter.mpr ⟨hs, by simpa using hneeds⟩
  have hMsub : ∀ x ∈ suggestions.filter (fun s =>
      decide (MANDATORY_NEED_THRESHOLD - tolerance ≤ s.need)),
      x ∈ suggestions ∧ MANDATORY_NEED_THRESHOLD - tolerance ≤ x.need := by
    intro x hx
    obtain ⟨hx1, hx2⟩ := List.mem_filter.mp hx
    exact ⟨hx1, by simpa using hx2⟩
  have htg : total_gap_minutes [g] = g.duration := by
    simp [total_gap_minutes]
  have hfil2 : (suggestions.filter (fun s =>
      decide (MANDATORY_NEED_THRESHOLD - tolerance ≤ s.need))).filter
      (fun x => ((suggestions.filter (fun s =>
        decide (MANDATORY_NEED_THRESHOLD - tolerance ≤ s.need))) ++
        (suggestions.filter (fun s => !((suggestions.filter (fun s =>
          decide (MANDATORY_NEED_THRESHOLD - tolerance ≤
            s.need))).contains s)))).contains x) =
      suggestions.filter (fun s =>
        decide (MANDATORY_NEED_THRESHOLD - tolerance ≤ s.need)) := by
    refine List.filter_eq_self.mpr ?_
    intro a ha
    obtain ⟨ha1, ha2⟩ := List.mem_filter.mp ha
    have ha3 := of_decide_eq_true ha2
    simp [List.elem_iff]
    exact Or.inl ⟨ha1, by linarith⟩
  unfold schedule_suggestions
  dsimp only
  rw [htg]
  rw [if_neg (not_lt.mpr (by linarith))]
  rw [hfil2]
  obtain ⟨a, l, hax⟩ : ∃ a l, suggestions.filter (fun s =>
      decide (MANDATORY_NEED_THRESHOLD - tolerance ≤ s.need)) = a :: l := by
    cases hM : suggestions.filter (fun s =>
        decide (MANDATORY_NEED_THRESHOLD - tolerance ≤ s.need)) with
    | nil =>
      rw [hM] at hsM
      exact absurd hsM (List.not_mem_nil s)
    | cons a l => exact ⟨a, l, rfl⟩
  obtain ⟨ost1, hsg, hrem1, hdrop1, hcov1, halloc1⟩ :=
    schedule_group_fits euclidean_distance g (resolve_gap_labels [g])
      permutation_limit tolerance htol hdist hend
      (suggestions.filter (fun s =>
        decide (MANDATORY_NEED_THRESHOLD - tolerance ≤ s.need)))
      (suggestions.filter (fun s => !((suggestions.filter (fun s =>
        decide (MANDATORY_NEED_THRESHOLD - tolerance ≤ s.need))).contains s)))
      ⟨(suggestions.filter (fun s =>
          decide (MANDATORY_NEED_THRESHOLD - tolerance ≤ s.need))) ++
        (suggestions.filter (fun s => !((suggestions.filter (fun s =>
          decide (MANDATORY_NEED_THRESHOLD - tolerance ≤
            s.need))).contains s))),
        none, [], [], [], [], [], 0, 0⟩
      (by rw [hax]; exact List.cons_ne_nil a l)
      (fun x hx => hpr x (hMsub x hx).1 (hMsub x hx).2)
      (fun x hx => hloc x (hMsub x hx).1 (hMsub x hx).2)
      (fun x hx => hdur x (hMsub x hx).1 (hMsub x hx).2)
      htot hlim rfl rfl rfl
  have hafter : (match suggestions.filter (fun s =>
      decide (MANDATORY_NEED_THRESHOLD - tolerance ≤ s.need)) with
      | [] => some (⟨(suggestions.filter (fun s =>
            decide (MANDATORY_NEED_THRESHOLD - tolerance ≤ s.need))) ++
          (suggestions.filter (fun s => !((suggestions.filter (fun s =>
            decide (MANDATORY_NEED_THRESHOLD - tolerance ≤
              s.need))).contains s))),
          none, [], [], [], [], [], 0, 0⟩ : OrchSt)
      | _ :: _ =>
        if (schedule_group euclidean_distance [g] (resolve_gap_labels [g])
            permutation_limit tolerance
            (suggestions.filter (fun s =>
              decide (MANDATORY_NEED_THRESHOLD - tolerance ≤ s.need)))
            ⟨(suggestions.filter (fun s =>
                decide (MANDATORY_NEED_THRESHOLD - tolerance ≤ s.need))) ++
              (suggestions.filter (fun s => !((suggestions.filter (fun s =>
                decide (MANDATORY_NEED_THRESHOLD - tolerance ≤
                  s.need))).contains s))),
              none, [], [], [], [], [], 0, 0⟩).1 = true then
          some (schedule_group euclidean_distance [g] (resolve_gap_labels [g])
            permutation_limit tolerance
            (suggestions.filter (fun s =>
              decide (MANDATORY_NEED_THRESHOLD - tolerance ≤ s.need)))
            ⟨(suggestions.filter (fun s =>
                decide (MANDATORY_NEED_THRESHOLD - tolerance ≤ s.need))) ++
              (suggestions.filter (fun s => !((suggestions.filter (fun s =>
                decide (MANDATORY_NEED_THRESHOLD - tolerance ≤
                  s.need))).contains s))),
              none, [], [], [], [], [], 0, 0⟩).2
        else none) = some ost1 := by
    rw [hax]
    dsimp only
    rw [← hax, hsg]
    simp
  rw [hafter]
  split
  next heq => exact Option.noConfusion heq
  next ost1x heq =>
    injection heq with heq
    subst heq
    have hOrch := optLoop_inv euclidean_distance [g] (resolve_gap_labels [g])
      permutation_limit tolerance max_distance resolution_minutes
      (suggestions.filter (fun s => !((suggestions.filter (fun s =>
        decide (MANDATORY_NEED_THRESHOLD - tolerance ≤ s.need))).contains s)))
      suggestions hpos
      (fun x hx => List.mem_of_mem_filter hx)
      (ost1.remaining.length + 1) ost1
    obtain ⟨⟨new, hnew, -⟩, hmono, -⟩ := hOrch
    dsimp only
    constructor
    · obtain ⟨b, hb, hbid, hbdur⟩ := hcov1 s hsM
      have hbF : b ∈ (optLoop euclidean_distance [g] (resolve_gap_labels [g])
          permutation_limit tolerance max_distance resolution_minutes
          (suggestions.filter (fun s => !((suggestions.filter (fun s =>
            decide (MANDATORY_NEED_THRESHOLD - tolerance ≤
              s.need))).contains s)))
          (ost1.remaining.length + 1) ost1).scheduled_blocks_total := by
        rw [hnew]
        exact List.mem_append_left _ hb
      exact ⟨b, (sortBlocks_perm _).mem_iff.mpr hbF, hbid, hbdur⟩
    · have h1 := halloc1 s hsM
      have h2 := hmono s.suggestion_id
      linarith


set_option maxHeartbeats 1600000 in
/-- C1 counterexample: `mand6` and `mand4` are both mandatory, share the same
location — reachable at zero distance under `dist0` — and their total duration
(10) fits the total capacity of the two 5-minute gaps (10), yet neither fits a
single gap, so `schedule_suggestions` returns no blocks at all and drops both:
the claim's conclusion fails even though its hypotheses hold. -/
theorem mandatory_scheduling_counterexample :
    mand6.duration + mand4.duration ≤ total_gap_minutes [gap5a, gap5b] ∧
    MANDATORY_NEED_THRESHOLD - 1/1000000 ≤ mand6.need ∧
    MANDATORY_NEED_THRESHOLD - 1/1000000 ≤ mand4.need ∧
    mand6.location = mand4.location ∧
    (schedule_suggestions dist0 [mand6, mand4] [gap5a, gap5b] 3 8 (1/1000000)
      1).scheduled_blocks = [] ∧
    (schedule_suggestions dist0 [mand6, mand4] [gap5a, gap5b] 3 8 (1/1000000)
      1).dropped_suggestions = [mand6, mand4] := by
  with_unfolding_all decide

/-- Closed instance of the amended C1 theorem on a mixed input: scheduling the
mandatory `mand6` together with the optional `opt30` into the single
100-minute gap gives the mandatory suggestion its 6-minute block and at least
`6 - tolerance` allocated minutes. -/
theorem schedule_suggestions_mandatory_single_gap_witness :
    (∃ b ∈ (schedule_suggestions dist0 [mand6, opt30] [gap100] 3 8 (1/1000000)
        1).scheduled_blocks,
      b.suggestion_id = mand6.suggestion_id ∧ b.duration = mand6.duration) ∧
    mand6.duration - 1/1000000 ≤ dget (schedule_suggestions dist0
      [mand6, opt30] [gap100] 3 8 (1/1000000) 1).allocated_minutes
      mand6.suggestion_id 0 :=
  schedule_suggestions_mandatory_single_gap dist0 [mand6, opt30] gap100 3 8
    (1/1000000) 1
    (by
      intro s hs hneed
      rcases List.mem_cons.mp hs with h | h
      · rw [h]
        rfl
      · rw [List.mem_singleton.mp h]
        rfl)
    (by
      intro s hs hneed
      rcases List.mem_cons.mp hs with h | h
      · rw [h]
        rfl
      · rw [List.mem_singleton.mp h]
        rfl)
    (by
      intro s hs hneed
      rcases List.mem_cons.mp hs with h | h
      · rw [h]
        norm_num [mand6]
      · rw [List.mem_singleton.mp h]
        norm_num [opt30])
    rfl rfl (by norm_num)
    (by
      intro s hs
      rcases List.mem_cons.mp hs with h | h
      · rw [h]
        norm_num [mand6]
      · rw [List.mem_singleton.mp h]
        norm_num [opt30])
    (by with_unfolding_all decide)
    (by with_unfolding_all decide)
    mand6 (by simp) (by norm_num [mand6, MANDATORY_NEED_THRESHOLD])

end HomePA